import Mathlib

/-!
# Shallow embedding of the Alpenglow consensus state machine

This file embeds the state machine of
`src/formal/stateright/src/lib_improved.rs` (the `AlpenglowState` type, its
constructor and helper methods, and the `next_state` transition function of the
`Model` implementation) and proves properties of the embedded definitions.

Modelling conventions, applied uniformly:

* Rust `HashMap<K, V>` becomes an association list `List (K × V)` with
  `lookupA` / `insertA` / `updateA` / `upsertA` mirroring `get`, `insert`,
  `get_mut`, and the `entry(..).or_insert(..)` pattern.  Where the source
  iterates a `HashMap` in unspecified order, the embedding iterates the
  association list in list order (a fixed determinisation of the source's
  unspecified order).
* Rust `HashSet<T>` becomes a duplicate-free `List T` built with `insertS`.
* `u32`/`u64` quantities become `Nat`.  Additive overflow (a panic in the
  source's debug profile) is not modelled; all claim-relevant arithmetic stays
  far below the machine bounds.  Subtractions that can underflow in the source
  (a panic) are modelled explicitly: `get_leader_for_slot` is `Option`-valued.
* `f64` fields and literals become `ℚ` (`0.05 ↦ 1/20`, etc.); the source's
  `x as u64` cast of a non-negative float becomes `⌊x⌋.toNat` (for negative
  values both saturate to `0`).  On every concrete input evaluated below the
  rational and binary-float computations agree.
* Source panics are modelled by `none` of the `Option`-valued step function
  `stepA` (mirroring `next_state`, which returns `Option<State>`).
-/

namespace Alpenglow

abbrev NodeId := Nat
abbrev Slot := Nat
abbrev BlockId := Nat
abbrev StakeAmount := Nat
abbrev Timestamp := Nat
abbrev RewardAmount := Nat
abbrev SlashingAmount := Nat
abbrev Bandwidth := Nat

/-- Mirrors `HashMap::get`: first binding of the key in the association list. -/
def lookupA {α β : Type} [DecidableEq α] : List (α × β) → α → Option β
  | [], _ => none
  | (k, v) :: rest, a => if k = a then some v else lookupA rest a

/-- Mirrors `HashMap::insert`: replace the binding in place, else append. -/
def insertA {α β : Type} [DecidableEq α] : List (α × β) → α → β → List (α × β)
  | [], a, b => [(a, b)]
  | (k, v) :: rest, a, b =>
    if k = a then (a, b) :: rest else (k, v) :: insertA rest a b

/-- The `if let Some(x) = map.get_mut(&k) { *x = f x }` pattern: modify the
binding if present, otherwise leave the map unchanged. -/
def updateA {α β : Type} [DecidableEq α] : List (α × β) → α → (β → β) → List (α × β)
  | [], _, _ => []
  | (k, v) :: rest, a, f =>
    if k = a then (a, f v) :: rest else (k, v) :: updateA rest a f

/-- The `*map.entry(k).or_insert(d) := f ..` pattern: modify the binding if
present, otherwise insert `f d`. -/
def upsertA {α β : Type} [DecidableEq α] (m : List (α × β)) (a : α) (d : β)
    (f : β → β) : List (α × β) :=
  match lookupA m a with
  | some _ => updateA m a f
  | none => m ++ [(a, f d)]

/-- Mirrors `HashSet::insert`: add the element unless already present. -/
def insertS {α : Type} [DecidableEq α] (l : List α) (a : α) : List α :=
  if a ∈ l then l else l ++ [a]

/-- First-occurrence deduplication (the contents of a `HashSet` that was filled
by iterating a list). -/
def dedupKeep {α : Type} [DecidableEq α] (l : List α) : List α :=
  l.foldl insertS []

structure Block where
  id : BlockId
  parent : BlockId
deriving DecidableEq

structure BlockChunk where
  chunk_id : Nat
  block_id : BlockId
  data : List Nat
  checksum : Nat
deriving DecidableEq

structure ErasureCodedBlock where
  block : Block
  chunks : List BlockChunk
  redundancy_level : ℚ
  required_chunks : Nat
deriving DecidableEq

structure RelayNode where
  node_id : NodeId
  stake_weight : StakeAmount
  reliability_score : ℚ
  assigned_chunks : List Nat
deriving DecidableEq

structure WindowInfo where
  window_start : Slot
  window_size : Nat
  finality_depth : Nat
  leader_schedule : List NodeId
deriving DecidableEq

structure LeaderRotation where
  current_leader : NodeId
  current_slot : Slot
  rotation_interval : Nat
  leader_history : List (Slot × NodeId)
deriving DecidableEq

inductive VotePath where
  | Fast
  | Slow
deriving DecidableEq

structure Vote where
  node : NodeId
  slot : Slot
  block : BlockId
  path : VotePath
  stake : StakeAmount
deriving DecidableEq

/-- The `votes: HashSet<Vote>` field of the source becomes a duplicate-free list. -/
structure Certificate where
  votes : List Vote
  slot : Slot
  block : BlockId
  total_stake : StakeAmount
  path : VotePath
deriving DecidableEq

structure SkipCertificate where
  slot : Slot
  timeout_votes : List Vote
  total_stake : StakeAmount
deriving DecidableEq

structure FinalizedBlock where
  slot : Slot
  block_id : BlockId
  finalization_time : Timestamp
  total_stake : StakeAmount
deriving DecidableEq

structure TimeoutInfo where
  count : Nat
  last_timeout : Timestamp
  threshold : Nat
deriving DecidableEq

inductive SlashingType where
  | DoubleVoting
  | LongRangeAttack
  | InvalidProposal
  | Equivocation
  | NetworkDisruption
  | StakeWithdrawalViolation
deriving DecidableEq

inductive SlashingData where
  | DoubleVote (vote1 vote2 : Vote)
  | EquivocationProof (block1 block2 : Block)
  | InvalidBlock (block : Block) (violation : String)
  | NetworkAttack (attack_details : String)
deriving DecidableEq

inductive SlashingSeverity where
  | Minor
  | Moderate
  | Severe
  | Critical
deriving DecidableEq

structure SlashingEvidence where
  evidence_type : SlashingType
  violator : NodeId
  slot : Slot
  evidence_data : SlashingData
  severity : SlashingSeverity
  reporter : Option NodeId
  timestamp : Timestamp
deriving DecidableEq

structure RewardDistribution where
  epoch : Nat
  total_rewards : RewardAmount
  validator_rewards : List (NodeId × RewardAmount)
  performance_bonuses : List (NodeId × RewardAmount)
  participation_rewards : List (NodeId × RewardAmount)
deriving DecidableEq

structure EconomicState where
  rewards_pool : RewardAmount
  total_slashed : SlashingAmount
  validator_balances : List (NodeId × StakeAmount)
  pending_rewards : List (NodeId × RewardAmount)
  slashing_evidence : List SlashingEvidence
  reward_rate : ℚ
  slashing_rate : ℚ
deriving DecidableEq

inductive CertManipulationType where
  | PreventCertification
  | ConflictingCertificates
  | DelayedCertification (delay_slots : Nat)
deriving DecidableEq

inductive CoalitionAttackType where
  | SplitVote (target_blocks : List BlockId)
  | DelayedFlood (delay_until_slot : Slot)
  | StrategicTargeting (high_priority_slots : List Slot) (disruption_threshold : ℚ)
  | CertificateManipulation (target_path : VotePath)
      (manipulation_type : CertManipulationType)
deriving DecidableEq

inductive ByzantineStrategy where
  | Equivocation
  | WithholdVotes
  | RandomVotes
  | SelectiveEquivocation (min_stake_threshold : StakeAmount) (target_slots : List Slot)
  | AdaptiveBehavior (primary_strategy fallback_strategy : ByzantineStrategy)
      (adaptation_threshold : Nat)
  | CoalitionAttack (coalition_members : List NodeId) (attack_type : CoalitionAttackType)
  | TimingAttack (delay_votes : Bool) (max_delay : Nat) (target_path : Option VotePath)
  | StakeBasedAttack (reserve_stake_for_critical_slots : Bool)
      (activation_threshold : StakeAmount) (min_profit_margin : StakeAmount)
deriving DecidableEq

inductive NodeStatus where
  | Honest
  | Byzantine (strategy : ByzantineStrategy)
  | Crashed (since : Timestamp)
deriving DecidableEq

structure NetworkPartition where
  partition_a : List NodeId
  partition_b : List NodeId
  started_at : Timestamp
deriving DecidableEq

inductive EventType where
  | CoordinatedVote (target_block : BlockId)
  | CoordinatedWithhold (target_slot : Slot)
  | MessageFlood (message_count : Nat)
  | TimingAttack (delay_ms : Nat)
deriving DecidableEq

structure CoordinationEvent where
  slot : Slot
  event_type : EventType
  participants : List NodeId
  timestamp : Timestamp
deriving DecidableEq

structure ByzantineCoalition where
  members : List NodeId
  strategy : CoalitionAttackType
  coordination_history : List CoordinationEvent
  total_stake : StakeAmount
  formation_time : Timestamp
deriving DecidableEq

inductive AttackPhase where
  | Preparation
  | Execution
  | Completion
  | Adaptation
deriving DecidableEq

structure AttackMetrics where
  slots_disrupted : Nat
  certificates_prevented : Nat
  timeouts_caused : Nat
  economic_damage : StakeAmount
deriving DecidableEq

structure CoalitionState where
  active : Bool
  current_phase : AttackPhase
  success_metrics : AttackMetrics
  adaptation_count : Nat
deriving DecidableEq

inductive LatencyModel where
  | Constant (latency_ms : Nat)
  | Uniform (min_ms max_ms : Nat)
  | Normal (mean_ms std_dev_ms : Nat)
  | Realistic (base_latency_ms distance_factor congestion_multiplier : Nat)
deriving DecidableEq

structure CongestionState where
  current_utilization : List ((NodeId × NodeId) × ℚ)
  congestion_threshold : ℚ
  recovery_rate : ℚ
deriving DecidableEq

inductive FailureType where
  | LinkFailure (source target : NodeId)
  | NodeIsolation (node : NodeId)
  | PartialPartition (partition_a partition_b : List NodeId)
  | PacketLoss (loss_rate : ℚ)
  | LatencySpike (multiplier : ℚ)
  | BandwidthReduction (factor : ℚ)
deriving DecidableEq

structure NetworkFailure where
  failure_type : FailureType
  start_time : Timestamp
  duration : Timestamp
  affected_nodes : List NodeId
  severity : ℚ
deriving DecidableEq

structure NetworkSimulationState where
  latency_model : LatencyModel
  packet_loss_rate : ℚ
  bandwidth_limits : List ((NodeId × NodeId) × Bandwidth)
  congestion_state : CongestionState
  failure_injections : List NetworkFailure
deriving DecidableEq

inductive CoordinationInstruction where
  | PrepareAttack (target_slot : Slot)
  | ExecuteAttack (strategy : CoalitionAttackType)
  | AbortAttack (reason : String)
deriving DecidableEq

inductive MessageContent where
  | Vote (vote : Vote)
  | Certificate (cert : Certificate)
  | SkipCertificate (skip_cert : SkipCertificate)
  | Gossip (data : List Nat)
  | Heartbeat (sequence : Nat)
  | CoalitionCoordination (coalition_id : Nat) (instruction : CoordinationInstruction)
deriving DecidableEq

inductive MessagePriority where
  | Critical
  | High
  | Normal
  | Low
deriving DecidableEq

structure PendingMessage where
  id : Nat
  source : NodeId
  dest : NodeId
  content : MessageContent
  send_time : Timestamp
  scheduled_delivery_time : Timestamp
  priority : MessagePriority
  retry_count : Nat
deriving DecidableEq

structure DeliveredMessage where
  id : Nat
  source : NodeId
  dest : NodeId
  content : MessageContent
  send_time : Timestamp
  delivery_time : Timestamp
  actual_latency : Timestamp
deriving DecidableEq

structure MessageQueue where
  pending_messages : List PendingMessage
  delivered_messages : List DeliveredMessage
  message_counter : Nat
deriving DecidableEq

/-- The full consensus state (`AlpenglowState` of the source, all fields). -/
structure AlpenglowState where
  nodes : List NodeId
  stake_distribution : List (NodeId × StakeAmount)
  current_slot : Slot
  global_time : Timestamp
  ledger : List FinalizedBlock
  votes : List (NodeId × List (Slot × List Vote))
  certificates : List (Slot × Certificate)
  skip_certs : List (Slot × SkipCertificate)
  timeouts : List (NodeId × List (Slot × TimeoutInfo))
  status : List (NodeId × NodeStatus)
  network_partition : Option NetworkPartition
  byzantine_coalitions : List ByzantineCoalition
  coalition_state : List (Nat × CoalitionState)
  network_state : NetworkSimulationState
  message_queue : MessageQueue
  economic_state : EconomicState
  erasure_coded_blocks : List (BlockId × ErasureCodedBlock)
  relay_assignments : List (NodeId × RelayNode)
  chunk_availability : List ((BlockId × Nat) × List NodeId)
  current_window : WindowInfo
  leader_rotation : LeaderRotation
  finalization_times : List (Slot × Timestamp)
  view : Nat
deriving DecidableEq

/-- Mirrors `AlpenglowState::new`.  Votes and timeouts are pre-populated for slots
`1..=5`; the initial window is `[1, 10, 2, nodes]` and the initial leader is
`nodes[0]` (the source panics on an empty node list; the embedding uses
`headI`, i.e. node `0`, there — all claims use non-empty node lists). -/
def AlpenglowState.new (nodes : List NodeId)
    (stake_distribution : List (NodeId × StakeAmount)) : AlpenglowState :=
  let perSlotVotes : List (Slot × List Vote) := [(1, []), (2, []), (3, []), (4, []), (5, [])]
  let ti : TimeoutInfo := ⟨0, 0, 3⟩
  let perSlotTimeouts : List (Slot × TimeoutInfo) :=
    [(1, ti), (2, ti), (3, ti), (4, ti), (5, ti)]
  { nodes := nodes
    stake_distribution := stake_distribution
    current_slot := 1
    global_time := 0
    ledger := []
    votes := nodes.map (fun n => (n, perSlotVotes))
    certificates := []
    skip_certs := []
    timeouts := nodes.map (fun n => (n, perSlotTimeouts))
    status := nodes.map (fun n => (n, .Honest))
    network_partition := none
    byzantine_coalitions := []
    coalition_state := []
    network_state :=
      { latency_model := .Constant 50
        packet_loss_rate := 1/100
        bandwidth_limits := []
        congestion_state := { current_utilization := [], congestion_threshold := 4/5, recovery_rate := 1/10 }
        failure_injections := [] }
    message_queue := { pending_messages := [], delivered_messages := [], message_counter := 0 }
    economic_state :=
      { rewards_pool := nodes.length * 1000
        total_slashed := 0
        validator_balances := stake_distribution
        pending_rewards := []
        slashing_evidence := []
        reward_rate := 1/20
        slashing_rate := 1/10 }
    erasure_coded_blocks := []
    relay_assignments := []
    chunk_availability := []
    current_window := { window_start := 1, window_size := 10, finality_depth := 2, leader_schedule := nodes }
    leader_rotation := { current_leader := nodes.headI, current_slot := 1, rotation_interval := 1, leader_history := [(1, nodes.headI)] }
    finalization_times := []
    view := 0 }

/-- The `as u64` / `as usize` cast of an `f64` value modelled in `ℚ`: floor,
clamped at zero (both the cast of a negative float and `Int.toNat` of a
negative integer saturate to `0`). -/
def floorToNat (q : ℚ) : Nat := (⌊q⌋).toNat

/-- Mirrors `AlpenglowState::total_stake`. -/
def AlpenglowState.total_stake (s : AlpenglowState) : StakeAmount :=
  (s.stake_distribution.map (·.2)).sum

/-- Mirrors `AlpenglowState::fast_quorum_stake = (80 * total) / 100`. -/
def AlpenglowState.fast_quorum_stake (s : AlpenglowState) : StakeAmount :=
  (80 * s.total_stake) / 100

/-- Mirrors `AlpenglowState::slow_quorum_stake = (60 * total) / 100`. -/
def AlpenglowState.slow_quorum_stake (s : AlpenglowState) : StakeAmount :=
  (60 * s.total_stake) / 100

/-- Mirrors `AlpenglowState::byzantine_threshold_stake = (20 * total) / 100`. -/
def AlpenglowState.byzantine_threshold_stake (s : AlpenglowState) : StakeAmount :=
  (20 * s.total_stake) / 100

/-- Mirrors `AlpenglowState::calculate_epoch_rewards`.  The source computes with `f64`
and truncates (`as u64`); here the same formulas are evaluated in `ℚ` with a
final floor. -/
def AlpenglowState.calculate_epoch_rewards (s : AlpenglowState) (epoch : Nat)
    (participating_nodes : List NodeId) : RewardDistribution :=
  let total_available := s.economic_state.rewards_pool
  let epoch_rewards : RewardAmount :=
    floorToNat ((total_available : ℚ) * s.economic_state.reward_rate)
  let per_validator_base : RewardAmount :=
    if participating_nodes.isEmpty then 0 else epoch_rewards / participating_nodes.length
  let acc := participating_nodes.foldl
    (fun (acc : List (NodeId × RewardAmount) × List (NodeId × RewardAmount) ×
                 List (NodeId × RewardAmount)) node =>
      let base_reward := per_validator_base
      let stake_ratio : ℚ :=
        (((lookupA s.stake_distribution node).getD 0 : Nat) : ℚ) / (s.total_stake : ℚ)
      let stake_bonus : RewardAmount := floorToNat ((base_reward : ℚ) * stake_ratio * (2/10))
      let vr := insertA acc.1 node base_reward
      let pr := insertA acc.2.2 node (base_reward / 2)
      let pb := if lookupA s.status node = some .Honest then insertA acc.2.1 node stake_bonus
                else acc.2.1
      (vr, pb, pr))
    ([], [], [])
  { epoch := epoch
    total_rewards := epoch_rewards
    validator_rewards := acc.1
    performance_bonuses := acc.2.1
    participation_rewards := acc.2.2 }

/-- Mirrors `AlpenglowState::apply_slashing` as used by the `SlashValidator` handler:
the `Err` branch (zero balance) is absorbed, leaving the state unchanged. -/
def AlpenglowState.apply_slashing (s : AlpenglowState) (evidence : SlashingEvidence) :
    AlpenglowState :=
  let violator := evidence.violator
  let current_stake := (lookupA s.economic_state.validator_balances violator).getD 0
  if current_stake = 0 then s
  else
    let slash_percentage : ℚ := match evidence.severity with
      | .Minor => 5/100
      | .Moderate => 15/100
      | .Severe => 30/100
      | .Critical => 50/100
    let slash_amount : SlashingAmount := floorToNat ((current_stake : ℚ) * slash_percentage)
    let remaining_stake := current_stake - slash_amount
    let es := s.economic_state
    let es' := { es with
      validator_balances := insertA es.validator_balances violator remaining_stake
      total_slashed := es.total_slashed + slash_amount
      slashing_evidence := es.slashing_evidence ++ [evidence] }
    let st' := if evidence.severity = .Critical then
        insertA s.status violator (.Byzantine .Equivocation)
      else s.status
    { s with economic_state := es', status := st' }

/-- Mirrors `AlpenglowState::distribute_rewards` as used by the `DistributeRewards`
handler: the `Err` branch (rewards exceeding the pool) leaves the state
unchanged. -/
def AlpenglowState.distribute_rewards (s : AlpenglowState) (d : RewardDistribution) :
    AlpenglowState :=
  if s.economic_state.rewards_pool < d.total_rewards then s
  else
    let bal := d.validator_rewards.foldl
      (fun m p => upsertA m p.1 0 (· + p.2)) s.economic_state.validator_balances
    let bal := d.performance_bonuses.foldl (fun m p => upsertA m p.1 0 (· + p.2)) bal
    let bal := d.participation_rewards.foldl (fun m p => upsertA m p.1 0 (· + p.2)) bal
    { s with economic_state := { s.economic_state with
        validator_balances := bal
        rewards_pool := s.economic_state.rewards_pool - d.total_rewards } }

/-- Mirrors `AlpenglowState::create_erasure_coded_block` (the source's `&self` is
unused): `required_chunks = 10`, `total = 10 + ⌊10 · redundancy⌋`. -/
def create_erasure_coded_block (block : Block) (redundancy_level : ℚ) : ErasureCodedBlock :=
  let num_chunks : Nat := 10
  let redundant_chunks := floorToNat ((num_chunks : ℚ) * redundancy_level)
  let total_chunks := num_chunks + redundant_chunks
  let chunks := (List.range total_chunks).map (fun i =>
    ({ chunk_id := i, block_id := block.id, data := List.replicate 64 (i % 256),
       checksum := i * 12345 + block.id } : BlockChunk))
  { block := block, chunks := chunks, redundancy_level := redundancy_level,
    required_chunks := num_chunks }

/-- The stake walk of `select_relay_node_for_chunk`: accumulate stake along the
distribution until the running weight first reaches `target`. -/
def walkStake : List (NodeId × StakeAmount) → Nat → Nat → Option NodeId
  | [], _, _ => none
  | (n, st) :: rest, cur, target =>
    if target ≤ cur + st then some n else walkStake rest (cur + st) target

/-- Mirrors `AlpenglowState::select_relay_node_for_chunk`.  The caller guarantees
`total_stake ≠ 0` (the source's `seed % total_stake` panics otherwise). -/
def AlpenglowState.select_relay_node_for_chunk (s : AlpenglowState) (chunk_id : Nat)
    (total_stake : StakeAmount) : Option NodeId :=
  let target := (chunk_id * 12345) % total_stake
  (walkStake s.stake_distribution 0 target).orElse (fun _ => s.nodes.head?)

/-- Mirrors `AlpenglowState::select_relay_nodes`.  `none` models the panic of
`select_relay_node_for_chunk` (`% 0`) when the total stake is zero and there is
at least one chunk to place. -/
def AlpenglowState.select_relay_nodes (s : AlpenglowState) (erasure_block : ErasureCodedBlock) :
    Option (List RelayNode) :=
  let total : StakeAmount := (s.stake_distribution.map (·.2)).sum
  if total = 0 ∧ ¬ erasure_block.chunks.isEmpty then none
  else some (erasure_block.chunks.foldl
    (fun acc chunk =>
      match s.select_relay_node_for_chunk chunk.chunk_id total with
      | some node_id =>
        if acc.any (fun r => r.node_id = node_id) then
          acc.map (fun r =>
            if r.node_id = node_id then
              { r with assigned_chunks := r.assigned_chunks ++ [chunk.chunk_id] }
            else r)
        else acc ++ [{ node_id := node_id,
                       stake_weight := (lookupA s.stake_distribution node_id).getD 0,
                       reliability_score := 19/20,
                       assigned_chunks := [chunk.chunk_id] }]
      | none => acc)
    [])

/-- Mirrors `AlpenglowState::can_reconstruct_block`: the distinct chunk ids among the
keys of `chunk_availability` matching the block, compared with
`required_chunks` (the source collects them into a `HashSet<u32>`). -/
def AlpenglowState.can_reconstruct_block (s : AlpenglowState) (block_id : BlockId) : Bool :=
  match lookupA s.erasure_coded_blocks block_id with
  | some erasure_block =>
    let available_chunks :=
      dedupKeep ((s.chunk_availability.filter (fun e => e.1.1 = block_id)).map (fun e => e.1.2))
    erasure_block.required_chunks ≤ available_chunks.length
  | none => false

/-- Mirrors `AlpenglowState::propagate_chunks`. -/
def AlpenglowState.propagate_chunks (s : AlpenglowState) (node_id : NodeId)
    (erasure_block : ErasureCodedBlock) : AlpenglowState :=
  match lookupA s.relay_assignments node_id with
  | some relay =>
    let avail := relay.assigned_chunks.foldl
      (fun m cid => upsertA m (erasure_block.block.id, cid) [] (fun set => insertS set node_id))
      s.chunk_availability
    { s with chunk_availability := avail }
  | none => s

/-- Mirrors `AlpenglowState::get_leader_for_slot`.  `none` models the source's panic:
the `u32` subtraction `slot - window_start` underflows when
`slot < window_start`, and `% leader_schedule.len()` is a division by zero on
an empty schedule (`List.get?` returns `none` exactly then, since
`x % 0 = x ≥ 0 = length`). -/
def AlpenglowState.get_leader_for_slot (s : AlpenglowState) (slot : Slot) : Option NodeId :=
  if slot < s.current_window.window_start then none
  else s.current_window.leader_schedule.get?
    ((slot - s.current_window.window_start) % s.current_window.leader_schedule.length)

/-- Mirrors `AlpenglowState::rotate_leader`; `none` propagates the
`get_leader_for_slot` panic. -/
def AlpenglowState.rotate_leader (s : AlpenglowState) (new_slot : Slot) :
    Option AlpenglowState :=
  match s.get_leader_for_slot new_slot with
  | none => none
  | some new_leader =>
    let lr := s.leader_rotation
    let hist := lr.leader_history ++ [(new_slot, new_leader)]
    let hist := if 100 < hist.length then hist.drop 1 else hist
    some { s with leader_rotation :=
      { lr with current_leader := new_leader, current_slot := new_slot, leader_history := hist } }

/-- Mirrors `AlpenglowState::generate_leader_schedule_for_window`: stable sort of the
nodes, higher hash `(seed·stake·id) % 1000` first. -/
def AlpenglowState.generate_leader_schedule_for_window (s : AlpenglowState)
    (window_start : Slot) : List NodeId :=
  let seed := window_start
  let h := fun (n : NodeId) => (seed * ((lookupA s.stake_distribution n).getD 0) * n) % 1000
  s.nodes.mergeSort (fun a b => h b ≤ h a)

/-- Mirrors `AlpenglowState::update_window`. -/
def AlpenglowState.update_window (s : AlpenglowState) (new_slot : Slot)
    (window_size finality_depth : Nat) : AlpenglowState :=
  if s.current_window.window_start + s.current_window.window_size ≤ new_slot then
    { s with current_window :=
      { window_start := new_slot, window_size := window_size,
        finality_depth := finality_depth,
        leader_schedule := s.generate_leader_schedule_for_window new_slot } }
  else s

/-- Mirrors `AlpenglowState::check_finalization_time_bounds`.  (The `u64` subtraction
`finalization_time - slot·1000` is truncated here; `finalization_times` is
empty in every reachable state, so the branch is never exercised.) -/
def AlpenglowState.check_finalization_time_bounds (s : AlpenglowState) (slot : Slot) : Bool :=
  match lookupA s.finalization_times slot with
  | some finalization_time =>
    let slot_start_time := slot * 1000
    let bound := min 500 (2 * 1000)
    finalization_time - slot_start_time ≤ bound
  | none => true

/-- The `bounded_finalization_time` property of the `Model` implementation:
`check_finalization_time_bounds` at every key of `finalization_times`. -/
def bounded_finalization_time (s : AlpenglowState) : Bool :=
  s.finalization_times.all (fun e => s.check_finalization_time_bounds e.1)

/-- The `honest_no_equivocation` property of the `Model` implementation: for
every node whose status is `Honest`, within each of its per-slot vote lists
every `(slot, path)` group holds at most one block value (stated here in the
equivalent pairwise form).  The source indexes `status[&node]`; a vote entry
for a node without a status (a panic there) is skipped here. -/
def honest_no_equivocation (s : AlpenglowState) : Bool :=
  s.votes.all (fun nv =>
    if lookupA s.status nv.1 = some .Honest then
      nv.2.all (fun sv =>
        sv.2.all (fun v1 => sv.2.all (fun v2 =>
          if v1.slot = v2.slot ∧ v1.path = v2.path then v1.block = v2.block else true)))
    else true)

/-- Mirrors `AlpenglowState::add_vote_to_state`: push unconditionally, but only when
both the node's vote map and the slot entry exist. -/
def add_vote_to_state (s : AlpenglowState) (vote : Vote) : AlpenglowState :=
  let votes' := updateA s.votes vote.node
    (fun nm => updateA nm vote.slot (fun sv => sv ++ [vote]))
  { s with votes := votes' }

/-- Emit a sequence of `(block, path)` votes for `node` at `slot` through
`add_vote_to_state` (the nested `for` loops of the Byzantine arms). -/
def addVotes (s : AlpenglowState) (node : NodeId) (slot : Slot) (stake : StakeAmount)
    (bps : List (BlockId × VotePath)) : AlpenglowState :=
  bps.foldl (fun t bp => add_vote_to_state t ⟨node, slot, bp.1, bp.2, stake⟩) s

/-- Mirrors `AlpenglowState::execute_coalition_attack`.  `none` models the panic of
`node_index % target_blocks.len()` (division by zero) for `SplitVote` with an
empty block list. -/
def execute_coalition_attack (s : AlpenglowState) (node : NodeId)
    (coalition_members : List NodeId) (attack_type : CoalitionAttackType)
    (slot : Slot) (stake : StakeAmount) : Option AlpenglowState :=
  if node ∉ coalition_members then some s
  else match attack_type with
  | .SplitVote target_blocks =>
    if target_blocks.isEmpty then none
    else
      let node_index := coalition_members.indexOf node
      let block := (target_blocks.get? (node_index % target_blocks.length)).getD 0
      some (add_vote_to_state s ⟨node, slot, block, .Fast, stake⟩)
  | .DelayedFlood delay_until_slot =>
    if delay_until_slot ≤ slot then
      some (addVotes s node slot stake [(0, .Fast), (0, .Slow), (1, .Fast), (1, .Slow)])
    else some s
  | .StrategicTargeting high_priority_slots _ =>
    if slot ∈ high_priority_slots then
      some (addVotes s node slot stake [(0, .Fast), (1, .Fast), (2, .Fast)])
    else some (add_vote_to_state s ⟨node, slot, 0, .Fast, stake⟩)
  | .CertificateManipulation target_path manipulation_type =>
    match manipulation_type with
    | .PreventCertification => some s
    | .ConflictingCertificates =>
      some (add_vote_to_state s ⟨node, slot, (node + slot) % 3, target_path, stake⟩)
    | .DelayedCertification _ =>
      if 2 < slot then
        some (add_vote_to_state s ⟨node, slot - 2, 0, target_path, stake⟩)
      else some s

/-- Mirrors `AlpenglowState::execute_byzantine_strategy`. -/
def execute_byzantine_strategy (s : AlpenglowState) (node : NodeId)
    (strategy : ByzantineStrategy) (slot : Slot) (stake : StakeAmount) :
    Option AlpenglowState :=
  match strategy with
  | .Equivocation => some (addVotes s node slot stake [(0, .Fast), (1, .Fast)])
  | .RandomVotes => some (add_vote_to_state s ⟨node, slot, (node + slot) % 2, .Fast, stake⟩)
  | .WithholdVotes => some s
  | .SelectiveEquivocation min_stake_threshold target_slots =>
    if min_stake_threshold ≤ stake ∧ slot ∈ target_slots then
      some (addVotes s node slot stake
        [(0, .Fast), (0, .Slow), (1, .Fast), (1, .Slow), (2, .Fast), (2, .Slow)])
    else some (add_vote_to_state s ⟨node, slot, 0, .Fast, stake⟩)
  | .AdaptiveBehavior primary_strategy fallback_strategy adaptation_threshold =>
    let timeout_count := match lookupA s.timeouts node with
      | some tm => match lookupA tm slot with
        | some info => info.count
        | none => 0
      | none => 0
    if adaptation_threshold ≤ timeout_count then
      execute_byzantine_strategy s node fallback_strategy slot stake
    else
      execute_byzantine_strategy s node primary_strategy slot stake
  | .CoalitionAttack coalition_members attack_type =>
    execute_coalition_attack s node coalition_members attack_type slot stake
  | .TimingAttack delay_votes max_delay target_path =>
    let s1 := if delay_votes then { s with global_time := s.global_time + min max_delay 1000 }
              else s
    some (add_vote_to_state s1 ⟨node, slot, 0, target_path.getD .Slow, stake⟩)
  | .StakeBasedAttack reserve_stake_for_critical_slots activation_threshold _ =>
    if activation_threshold ≤ stake then
      if reserve_stake_for_critical_slots ∧ slot % 3 = 0 then
        some (addVotes s node slot stake [(0, .Fast), (1, .Fast), (2, .Fast)])
      else some (add_vote_to_state s ⟨node, slot, 1, .Fast, stake⟩)
    else some s

/-- The action algebra (`AlpenglowAction` of the source, all variants). -/
inductive AlpenglowAction where
  | Vote (node : NodeId) (slot : Slot) (block : BlockId) (path : VotePath)
  | ByzantineVote (node : NodeId) (strategy : ByzantineStrategy) (slot : Slot)
  | Certify (slot : Slot) (path : VotePath)
  | Timeout (node : NodeId) (slot : Slot)
  | SkipCert (slot : Slot)
  | AdvanceTime (delta : Timestamp)
  | NetworkPartition (nodes_a nodes_b : List NodeId)
  | HealPartition
  | FormCoalition (members : List NodeId) (strategy : CoalitionAttackType)
  | CoordinateAttack (coalition_index : Nat) (target_slot : Slot)
  | AdaptStrategy (node : NodeId) (new_strategy : ByzantineStrategy) (reason : String)
  | TimingManipulation (node : NodeId) (delay_ms : Nat) (target_slot : Slot)
  | SendMessage (source dest : NodeId) (content : MessageContent) (priority : MessagePriority)
  | DeliverMessage (message_id : Nat)
  | DropMessage (message_id : Nat) (reason : String)
  | InjectNetworkFailure (failure : NetworkFailure)
  | RecoverFromFailure (failure_index : Nat)
  | UpdateLatencyModel (new_model : LatencyModel)
  | AdjustBandwidth (source dest : NodeId) (new_bandwidth : Bandwidth)
  | SimulateCongestion (links : List (NodeId × NodeId)) (intensity : ℚ)
  | DistributeRewards (epoch : Nat) (rewards : RewardDistribution)
  | SlashValidator (evidence : SlashingEvidence)
  | WithdrawRewards (node : NodeId) (amount : RewardAmount)
  | StakeDeposit (node : NodeId) (amount : StakeAmount)
  | StakeWithdrawal (node : NodeId) (amount : StakeAmount)
  | ReportSlashing (reporter : NodeId) (evidence : SlashingEvidence)
  | UpdateEconomicParameters (new_reward_rate new_slashing_rate : ℚ)
  | PropagateErasureBlock (node : NodeId) (erasure_block : ErasureCodedBlock)
  | PropagateChunk (node : NodeId) (chunk : BlockChunk) (target_nodes : List NodeId)
  | RequestMissingChunks (node : NodeId) (block_id : BlockId) (missing_chunks : List Nat)
  | ReconstructBlock (node : NodeId) (block_id : BlockId)
  | AssignRelayNodes (block_id : BlockId) (relay_assignments : List RelayNode)
  | ProposeBlock (leader : NodeId) (slot : Slot) (block : Block) (window : WindowInfo)
  | RotateLeader (new_leader : NodeId) (slot : Slot)
  | UpdateWindow (slot : Slot) (window_size finality_depth : Nat)
deriving DecidableEq

/-- The `Vote` arm of `next_state`.  `none` models the `status[&node]` panic
for a node with no status entry. -/
def voteH (s : AlpenglowState) (node : NodeId) (slot : Slot) (block : BlockId)
    (path : VotePath) : Option AlpenglowState :=
  match lookupA s.status node with
  | none => none
  | some .Honest =>
    let stake := (lookupA s.stake_distribution node).getD 0
    let vote : Vote := ⟨node, slot, block, path, stake⟩
    let votes' := updateA s.votes node (fun nm => updateA nm slot (fun sv =>
      if sv.any (fun v => v.block = block ∧ v.path = path) then sv else sv ++ [vote]))
    some { s with votes := votes' }
  | some _ => some s

/-- The `ByzantineVote` arm of `next_state`. -/
def byzantineVoteH (s : AlpenglowState) (node : NodeId) (strategy : ByzantineStrategy)
    (slot : Slot) : Option AlpenglowState :=
  match lookupA s.status node with
  | none => none
  | some (.Byzantine _) =>
    let stake := (lookupA s.stake_distribution node).getD 0
    execute_byzantine_strategy s node strategy slot stake
  | some _ => some s

/-- The vote scan of the `Certify` arm: all recorded votes for `slot` whose
path matches, across all nodes, in the (determinised) iteration order of the
vote map. -/
def votesForSlotPath (s : AlpenglowState) (slot : Slot) (path : VotePath) : List Vote :=
  s.votes.flatMap (fun nv =>
    match lookupA nv.2 slot with
    | some sv => sv.filter (fun v => v.path = path)
    | none => [])

/-- The per-block stake accumulated by the `Certify` scan. -/
def blockStakeSum (s : AlpenglowState) (slot : Slot) (path : VotePath) (b : BlockId) :
    StakeAmount :=
  (((votesForSlotPath s slot path).filter (fun v => v.block = b)).map (·.stake)).sum

/-- The quorum the `Certify` arm requires on each path. -/
def quorumFor (s : AlpenglowState) (path : VotePath) : StakeAmount :=
  match path with
  | .Fast => s.fast_quorum_stake
  | .Slow => s.slow_quorum_stake

/-- The `Certify` arm of `next_state`: collect all votes for the slot on the
path, group stake and votes per block, install a certificate for the first
block (in first-occurrence order, a fixed determinisation of the source's
`HashMap` iteration) whose stake meets the path's quorum, and append a
`FinalizedBlock` iff the slot is not yet on the ledger. -/
def certifyH (s : AlpenglowState) (slot : Slot) (path : VotePath) : AlpenglowState :=
  let all_votes : List Vote := votesForSlotPath s slot path
  let block_stakes := all_votes.foldl (fun m v => upsertA m v.block 0 (· + v.stake)) []
  let block_votes := all_votes.foldl (fun m v => upsertA m v.block [] (fun set => insertS set v)) []
  let required_stake := quorumFor s path
  match block_stakes.find? (fun p => required_stake ≤ p.2) with
  | none => s
  | some (block, tot) =>
    match lookupA block_votes block with
    | none => s
    | some vset =>
      let cert : Certificate := ⟨vset, slot, block, tot, path⟩
      let s1 := { s with certificates := insertA s.certificates slot cert }
      if s1.ledger.any (fun fb => fb.slot = slot) then s1
      else { s1 with ledger := s1.ledger ++ [⟨slot, block, s.global_time, tot⟩] }

/-- The `Timeout` arm of `next_state`. -/
def timeoutH (s : AlpenglowState) (node : NodeId) (slot : Slot) : AlpenglowState :=
  { s with timeouts := updateA s.timeouts node (fun tm => updateA tm slot
      (fun info => { info with count := info.count + 1, last_timeout := s.global_time })) }

/-- All recorded votes for a slot, over both paths, across all nodes (the
`SkipCert` scan). -/
def allSlotVotes (s : AlpenglowState) (slot : Slot) : List Vote :=
  s.votes.flatMap (fun nv => (lookupA nv.2 slot).getD [])

/-- Whether a node has reached its timeout threshold for the slot. -/
def nodeTimedOut (s : AlpenglowState) (slot : Slot) (node : NodeId) : Bool :=
  match lookupA s.timeouts node with
  | some tm => match lookupA tm slot with
    | some info => info.threshold ≤ info.count
    | none => false
  | none => false

/-- The count of nodes at their timeout threshold for the slot. -/
def timedOutNodeCount (s : AlpenglowState) (slot : Slot) : Nat :=
  (s.nodes.filter (nodeTimedOut s slot)).length

/-- The `SkipCert` arm of `next_state`. -/
def skipCertH (s : AlpenglowState) (slot : Slot) : AlpenglowState :=
  let timeout_count := timedOutNodeCount s slot
  if (60 * s.nodes.length) / 100 ≤ timeout_count then
    let all_votes : List Vote := allSlotVotes s slot
    let timeout_votes := all_votes.foldl insertS []
    let total_stake := all_votes.foldl (fun acc v => acc + v.stake) 0
    if s.slow_quorum_stake ≤ total_stake then
      { s with skip_certs := insertA s.skip_certs slot ⟨slot, timeout_votes, total_stake⟩ }
    else s
  else s

/-- Mirrors `AlpenglowState::calculate_latency` (the `f64` arithmetic of the source in
`ℚ`, truncated at the end exactly as `as u64` does; `state.global_time as u32`
becomes `% 4294967296`). In the `Uniform` arm the source computes `range` with a
`u64` subtraction (a debug-mode panic when `max_ms < min_ms`, here `Nat`
truncated subtraction) and casts `range as u32` before the modulus; that cast,
like the wrapping of the `u32` additions, is not modelled — it only differs for
parameters at or beyond `2^32`, which no claim exercises. -/
def calculate_latency (s : AlpenglowState) (source dest : NodeId) : Nat :=
  match s.network_state.latency_model with
  | .Constant latency_ms => latency_ms
  | .Uniform min_ms max_ms =>
    let range := max_ms - min_ms
    if range = 0 then min_ms
    else min_ms + ((source + dest + s.global_time % 4294967296) % range)
  | .Normal mean_ms std_dev_ms =>
    let hash_val := (source * 17 + dest * 31 + (s.global_time * 7) % 4294967296) % 1000
    let normalized : ℚ := (hash_val : ℚ) / 1000
    let z_score : ℚ := (normalized - 1/2) * 4
    let latency : ℚ := (mean_ms : ℚ) + z_score * (std_dev_ms : ℚ)
    floorToNat (max latency 1)
  | .Realistic base_latency_ms distance_factor congestion_multiplier =>
    let distance : ℚ := ((max source dest - min source dest : Nat) : ℚ)
    let congestion := (lookupA s.network_state.congestion_state.current_utilization
      (source, dest)).getD 0
    floorToNat ((base_latency_ms : ℚ) + distance * (distance_factor : ℚ)
      + congestion * (congestion_multiplier : ℚ))

/-- Mirrors `AlpenglowState::handle_send_message`. -/
def sendMessageH (s : AlpenglowState) (source dest : NodeId) (content : MessageContent)
    (priority : MessagePriority) : AlpenglowState :=
  let cross_partition : Bool := match s.network_partition with
    | some p => ¬ ((source ∈ p.partition_a) ↔ (dest ∈ p.partition_a))
    | none => false
  if cross_partition then s
  else
    let acc := s.network_state.failure_injections.foldl
      (fun (acc : Bool × ℚ) f =>
        if f.start_time ≤ s.global_time ∧ s.global_time < f.start_time + f.duration then
          match f.failure_type with
          | .LinkFailure a b =>
            (acc.1 || decide ((a = source ∧ b = dest) ∨ (a = dest ∧ b = source)), acc.2)
          | .NodeIsolation n => (acc.1 || decide (n = source ∨ n = dest), acc.2)
          | .PacketLoss loss_rate =>
            let hash_val := (source + dest + s.global_time % 4294967296) % 100
            (acc.1 || decide ((hash_val : ℚ) / 100 < loss_rate), acc.2)
          | .LatencySpike multiplier => (acc.1, acc.2 * multiplier)
          | _ => acc
        else acc)
      (false, 1)
    if acc.1 then s
    else
      let base_latency := calculate_latency s source dest
      let final_latency := floorToNat ((base_latency : ℚ) * acc.2)
      let congestion_factor := (lookupA s.network_state.congestion_state.current_utilization
        (source, dest)).getD 0
      let congestion_delay :=
        if s.network_state.congestion_state.congestion_threshold < congestion_factor then
          floorToNat ((final_latency : ℚ) * congestion_factor)
        else 0
      let total_latency := final_latency + congestion_delay
      let message_id := s.message_queue.message_counter
      let msg : PendingMessage :=
        ⟨message_id, source, dest, content, s.global_time, s.global_time + total_latency,
         priority, 0⟩
      { s with message_queue :=
        { pending_messages := s.message_queue.pending_messages ++ [msg]
          delivered_messages := s.message_queue.delivered_messages
          message_counter := message_id + 1 } }

/-- Mirrors `AlpenglowState::handle_deliver_message`.  (`actual_latency` is a truncated
subtraction; `global_time` never decreases, so it never underflows on
reachable deliveries.) -/
def deliverMessageH (s : AlpenglowState) (message_id : Nat) : AlpenglowState :=
  match s.message_queue.pending_messages.find? (fun m => m.id = message_id) with
  | none => s
  | some msg =>
    let pending := s.message_queue.pending_messages.eraseP (fun m => m.id = message_id)
    let s1 := { s with message_queue := { s.message_queue with pending_messages := pending } }
    let s2 := match msg.content with
      | .Vote v =>
        let votes' := updateA s1.votes msg.dest (fun nm => updateA nm v.slot (fun sv =>
          if sv.any (fun w => w.node = v.node ∧ w.block = v.block ∧ w.path = v.path) then sv
          else sv ++ [v]))
        { s1 with votes := votes' }
      | .Certificate c => { s1 with certificates := insertA s1.certificates c.slot c }
      | .SkipCertificate sc => { s1 with skip_certs := insertA s1.skip_certs sc.slot sc }
      | .CoalitionCoordination coalition_id instruction =>
        let cs' := updateA s1.coalition_state coalition_id (fun cs =>
          match instruction with
          | .PrepareAttack _ => { cs with current_phase := .Preparation }
          | .ExecuteAttack _ => { cs with current_phase := .Execution }
          | .AbortAttack _ => { cs with active := false })
        { s1 with coalition_state := cs' }
      | _ => s1
    let dm : DeliveredMessage :=
      ⟨msg.id, msg.source, msg.dest, msg.content, msg.send_time, s.global_time,
       s.global_time - msg.send_time⟩
    { s2 with message_queue :=
      { s2.message_queue with delivered_messages := s2.message_queue.delivered_messages ++ [dm] } }

/-- The transition function (`next_state` of the `Model` implementation).
`none` marks the argument combinations on which the source panics. -/
def stepA (s : AlpenglowState) (a : AlpenglowAction) : Option AlpenglowState :=
  match a with
  | .AdvanceTime delta =>
    let t := s.global_time + delta
    let s1 := { s with global_time := t }
    some (if t % 10 = 0 ∧ s1.current_slot < 5 then { s1 with current_slot := s1.current_slot + 1 }
          else s1)
  | .Vote node slot block path => voteH s node slot block path
  | .ByzantineVote node strategy slot => byzantineVoteH s node strategy slot
  | .Certify slot path => some (certifyH s slot path)
  | .Timeout node slot => some (timeoutH s node slot)
  | .SkipCert slot => some (skipCertH s slot)
  | .NetworkPartition nodes_a nodes_b =>
    some { s with network_partition := some ⟨nodes_a, nodes_b, s.global_time⟩ }
  | .HealPartition => some { s with network_partition := none }
  | .FormCoalition members strategy =>
    let total := (members.map (fun n => (lookupA s.stake_distribution n).getD 0)).sum
    let coalition : ByzantineCoalition := ⟨members, strategy, [], total, s.global_time⟩
    let coalition_index := s.byzantine_coalitions.length
    let cs : CoalitionState := ⟨true, .Preparation, ⟨0, 0, 0, 0⟩, 0⟩
    some { s with byzantine_coalitions := s.byzantine_coalitions ++ [coalition],
                  coalition_state := insertA s.coalition_state coalition_index cs }
  | .CoordinateAttack coalition_index target_slot =>
    match lookupA s.coalition_state coalition_index with
    | none => some s
    | some cs =>
      let cs' := insertA s.coalition_state coalition_index { cs with current_phase := .Execution }
      let s1 := { s with coalition_state := cs' }
      match s1.byzantine_coalitions.get? coalition_index with
      | none => some s1
      | some c =>
        let ev : CoordinationEvent :=
          ⟨target_slot, .CoordinatedWithhold target_slot, c.members, s.global_time⟩
        let c' := { c with coordination_history := c.coordination_history ++ [ev] }
        some { s1 with byzantine_coalitions := s1.byzantine_coalitions.set coalition_index c' }
  | .AdaptStrategy node new_strategy _ =>
    some { s with status := updateA s.status node (fun _ => .Byzantine new_strategy) }
  | .TimingManipulation _ _ _ => some { s with global_time := s.global_time + 10 }
  | .SendMessage source dest content priority => some (sendMessageH s source dest content priority)
  | .DeliverMessage message_id => some (deliverMessageH s message_id)
  | .DropMessage message_id _ =>
    let pending := s.message_queue.pending_messages.filter (fun m => ¬ m.id = message_id)
    some { s with message_queue := { s.message_queue with pending_messages := pending } }
  | .InjectNetworkFailure failure =>
    some { s with network_state := { s.network_state with
      failure_injections := s.network_state.failure_injections ++ [failure] } }
  | .RecoverFromFailure failure_index =>
    if failure_index < s.network_state.failure_injections.length then
      some { s with network_state := { s.network_state with
        failure_injections := s.network_state.failure_injections.eraseIdx failure_index } }
    else some s
  | .UpdateLatencyModel new_model =>
    some { s with network_state := { s.network_state with latency_model := new_model } }
  | .AdjustBandwidth source dest new_bandwidth =>
    some { s with network_state := { s.network_state with
      bandwidth_limits := insertA s.network_state.bandwidth_limits (source, dest) new_bandwidth } }
  | .SimulateCongestion links intensity =>
    let util := links.foldl (fun m l => insertA m l intensity)
      s.network_state.congestion_state.current_utilization
    some { s with network_state := { s.network_state with
      congestion_state := { s.network_state.congestion_state with current_utilization := util } } }
  | .DistributeRewards _ rewards => some (s.distribute_rewards rewards)
  | .SlashValidator evidence => some (s.apply_slashing evidence)
  | .WithdrawRewards node amount =>
    some (match lookupA s.economic_state.validator_balances node with
      | some balance =>
        if amount ≤ balance then
          let bal := insertA s.economic_state.validator_balances node (balance - amount)
          { s with economic_state := { s.economic_state with validator_balances := bal } }
        else s
      | none => s)
  | .StakeDeposit node amount =>
    let bal := upsertA s.economic_state.validator_balances node 0 (· + amount)
    let s1 := { s with
      economic_state := { s.economic_state with validator_balances := bal }
      stake_distribution := upsertA s.stake_distribution node 0 (· + amount) }
    some (if node ∈ s1.nodes then s1 else { s1 with nodes := s1.nodes ++ [node] })
  | .StakeWithdrawal node amount =>
    some (match lookupA s.economic_state.validator_balances node with
      | some balance =>
        if amount ≤ balance then
          let bal := insertA s.economic_state.validator_balances node (balance - amount)
          { s with
            economic_state := { s.economic_state with validator_balances := bal }
            stake_distribution := updateA s.stake_distribution node (fun st => st - amount) }
        else s
      | none => s)
  | .ReportSlashing _ evidence =>
    some { s with economic_state := { s.economic_state with
      slashing_evidence := s.economic_state.slashing_evidence ++ [evidence] } }
  | .UpdateEconomicParameters new_reward_rate new_slashing_rate =>
    some { s with economic_state := { s.economic_state with
      reward_rate := new_reward_rate, slashing_rate := new_slashing_rate } }
  | .PropagateErasureBlock node erasure_block =>
    let ecbs := insertA s.erasure_coded_blocks erasure_block.block.id erasure_block
    let s1 := { s with erasure_coded_blocks := ecbs }
    match s1.select_relay_nodes erasure_block with
    | none => none
    | some relay_nodes =>
      let ra := relay_nodes.foldl (fun m r => insertA m r.node_id r) s1.relay_assignments
      let s2 := { s1 with relay_assignments := ra }
      some (s2.propagate_chunks node erasure_block)
  | .PropagateChunk _ chunk target_nodes =>
    let avail := target_nodes.foldl
      (fun m t => upsertA m (chunk.block_id, chunk.chunk_id) [] (fun set => insertS set t))
      s.chunk_availability
    some { s with chunk_availability := avail }
  | .RequestMissingChunks _ _ _ => some s
  | .ReconstructBlock node block_id =>
    some (if s.can_reconstruct_block block_id then
      match lookupA s.erasure_coded_blocks block_id with
      | some erasure_block =>
        let avail := erasure_block.chunks.foldl
          (fun m c => upsertA m (block_id, c.chunk_id) [] (fun set => insertS set node))
          s.chunk_availability
        { s with chunk_availability := avail }
      | none => s
    else s)
  | .AssignRelayNodes _ relays =>
    let ra := relays.foldl (fun m r => insertA m r.node_id r) s.relay_assignments
    some { s with relay_assignments := ra }
  | .ProposeBlock leader slot _ _ =>
    match s.get_leader_for_slot slot with
    | none => none
    | some expected_leader =>
      some (if leader = expected_leader then { s with current_slot := max slot s.current_slot }
            else s)
  | .RotateLeader _ slot => s.rotate_leader slot
  | .UpdateWindow slot window_size finality_depth =>
    some (s.update_window slot window_size finality_depth)

/-- Iterated stepping (monadic fold of `stepA` over an action list). -/
def stepsFrom (s : AlpenglowState) : List AlpenglowAction → Option AlpenglowState
  | [] => some s
  | a :: rest => match stepA s a with
    | some s' => stepsFrom s' rest
    | none => none

/-- Reachability: the reflexive-transitive closure of the (non-panicking)
transition relation. -/
inductive Reachable (init : AlpenglowState) : AlpenglowState → Prop
  | refl : Reachable init init
  | step {s s' : AlpenglowState} {a : AlpenglowAction} :
      Reachable init s → stepA s a = some s' → Reachable init s'

theorem reachable_of_stepsFrom {init s s' : AlpenglowState} {l : List AlpenglowAction}
    (h : Reachable init s) (hs : stepsFrom s l = some s') : Reachable init s' := by
  induction l generalizing s with
  | nil => simp only [stepsFrom, Option.some.injEq] at hs; exact hs ▸ h
  | cons a rest ih =>
    rw [stepsFrom] at hs
    cases hst : stepA s a with
    | none => rw [hst] at hs; exact absurd hs (by simp)
    | some sm => rw [hst] at hs; exact ih (Reachable.step h hst) hs

/-! ## Association-list lemmas -/

section AList

variable {α β : Type} [DecidableEq α]

theorem lookupA_cons (k : α) (v : β) (m : List (α × β)) (a : α) :
    lookupA ((k, v) :: m) a = if k = a then some v else lookupA m a := rfl

theorem lookupA_append (m m' : List (α × β)) (a : α) :
    lookupA (m ++ m') a =
      match lookupA m a with
      | some v => some v
      | none => lookupA m' a := by
  induction m with
  | nil => simp [lookupA]
  | cons p rest ih =>
    obtain ⟨k, v⟩ := p
    by_cases h : k = a <;> simp [lookupA_cons, h, ih]

theorem lookupA_updateA (m : List (α × β)) (a b : α) (f : β → β) :
    lookupA (updateA m a f) b = if a = b then (lookupA m a).map f else lookupA m b := by
  induction m with
  | nil => simp [updateA, lookupA]
  | cons p rest ih =>
    obtain ⟨k, v⟩ := p
    by_cases hka : k = a
    · subst hka
      by_cases hkb : k = b
      · subst hkb; simp [updateA, lookupA_cons]
      · simp [updateA, lookupA_cons, hkb]
    · by_cases hkb : k = b
      · subst hkb
        simp [updateA, hka, lookupA_cons, Ne.symm hka]
      · simp [updateA, hka, lookupA_cons, hkb, ih]

theorem lookupA_insertA (m : List (α × β)) (a b : α) (c : β) :
    lookupA (insertA m a c) b = if a = b then some c else lookupA m b := by
  induction m with
  | nil => simp [insertA, lookupA_cons, lookupA]
  | cons p rest ih =>
    obtain ⟨k, v⟩ := p
    by_cases hka : k = a
    · subst hka
      by_cases hkb : k = b <;> simp [insertA, lookupA_cons, hkb]
    · by_cases hkb : k = b
      · subst hkb
        simp [insertA, hka, lookupA_cons, Ne.symm hka]
      · simp [insertA, hka, lookupA_cons, hkb, ih]

theorem lookupA_upsertA (m : List (α × β)) (a b : α) (d : β) (f : β → β) :
    lookupA (upsertA m a d f) b =
      if a = b then some (f ((lookupA m a).getD d)) else lookupA m b := by
  unfold upsertA
  cases h : lookupA m a with
  | some x => simp [lookupA_updateA, h]
  | none =>
    rw [lookupA_append]
    by_cases hab : a = b
    · subst hab; simp [h, lookupA_cons]
    · cases hb : lookupA m b <;> simp [hab, hb, lookupA_cons, lookupA]

theorem lookupA_eq_none_iff (m : List (α × β)) (a : α) :
    lookupA m a = none ↔ a ∉ m.map (·.1) := by
  induction m with
  | nil => simp [lookupA]
  | cons p rest ih =>
    obtain ⟨k, v⟩ := p
    by_cases h : k = a
    · subst h; simp [lookupA_cons]
    · simp [lookupA_cons, h, ih, Ne.symm h]

theorem mem_of_lookupA {m : List (α × β)} {a : α} {b : β} (h : lookupA m a = some b) :
    (a, b) ∈ m := by
  induction m with
  | nil => simp [lookupA] at h
  | cons p rest ih =>
    obtain ⟨k, v⟩ := p
    by_cases hk : k = a
    · subst hk
      simp [lookupA_cons] at h
      simp [h]
    · simp [lookupA_cons, hk] at h
      exact List.mem_cons_of_mem _ (ih h)

theorem lookupA_of_mem_nodup {m : List (α × β)} {a : α} {b : β}
    (hnd : (m.map (·.1)).Nodup) (h : (a, b) ∈ m) : lookupA m a = some b := by
  induction m with
  | nil => simp at h
  | cons p rest ih =>
    obtain ⟨k, v⟩ := p
    simp only [List.map_cons, List.nodup_cons] at hnd
    rcases List.mem_cons.mp h with h1 | h1
    · cases h1
      simp [lookupA_cons]
    · have hka : k ≠ a := by
        intro hk
        subst hk
        exact hnd.1 (List.mem_map.mpr ⟨(k, b), h1, rfl⟩)
      simp [lookupA_cons, hka, ih hnd.2 h1]

theorem keys_updateA (m : List (α × β)) (a : α) (f : β → β) :
    (updateA m a f).map (·.1) = m.map (·.1) := by
  induction m with
  | nil => simp [updateA]
  | cons p rest ih =>
    obtain ⟨k, v⟩ := p
    by_cases h : k = a <;> simp [updateA, h, ih]

theorem nodup_keys_upsertA (m : List (α × β)) (a : α) (d : β) (f : β → β)
    (h : (m.map (·.1)).Nodup) : ((upsertA m a d f).map (·.1)).Nodup := by
  unfold upsertA
  cases hl : lookupA m a with
  | some x => rw [keys_updateA]; exact h
  | none =>
    have ha : a ∉ m.map (·.1) := (lookupA_eq_none_iff m a).mp hl
    simp [List.nodup_append, h, ha]

theorem mem_insertS (l : List α) (a x : α) :
    x ∈ insertS l a ↔ x ∈ l ∨ x = a := by
  unfold insertS
  by_cases h : a ∈ l
  · simp only [if_pos h]
    constructor
    · exact Or.inl
    · rintro (hx | rfl)
      · exact hx
      · exact h
  · simp [if_neg h]

theorem mem_foldl_insertS (l m0 : List α) (x : α) :
    x ∈ l.foldl insertS m0 ↔ x ∈ m0 ∨ x ∈ l := by
  induction l generalizing m0 with
  | nil => simp
  | cons a rest ih =>
    simp only [List.foldl_cons, ih, mem_insertS, List.mem_cons]
    tauto

end AList

/-! ## Grouping-fold lemmas for `Certify` and `SkipCert` -/

section FoldGroup

variable {β γ : Type} [DecidableEq β]

theorem lookupA_foldl_upsertA_isSome {α : Type} (key : γ → β) (d : α) (g : γ → α → α)
    (l : List γ) (m0 : List (β × α)) (b : β) :
    (lookupA (l.foldl (fun m v => upsertA m (key v) d (g v)) m0) b).isSome
      ↔ (lookupA m0 b).isSome ∨ b ∈ l.map key := by
  induction l generalizing m0 with
  | nil => simp
  | cons v rest ih =>
    simp only [List.foldl_cons, List.map_cons, List.mem_cons]
    rw [ih, lookupA_upsertA]
    by_cases h : key v = b
    · simp [h]
    · have h' : ¬ b = key v := fun hh => h hh.symm
      simp [h, h']

theorem nodup_keys_foldl_upsertA {α : Type} (key : γ → β) (d : α) (g : γ → α → α)
    (l : List γ) (m0 : List (β × α)) (h : (m0.map (·.1)).Nodup) :
    ((l.foldl (fun m v => upsertA m (key v) d (g v)) m0).map (·.1)).Nodup := by
  induction l generalizing m0 with
  | nil => exact h
  | cons v rest ih => exact ih _ (nodup_keys_upsertA _ _ _ _ h)

end FoldGroup

/-- The stake that the votes of `l` contribute to block `b`. -/
def voteStakeIn (l : List Vote) (b : BlockId) : StakeAmount :=
  ((l.filter (fun v => v.block = b)).map (·.stake)).sum

theorem voteStakeIn_cons (v : Vote) (l : List Vote) (b : BlockId) :
    voteStakeIn (v :: l) b = (if v.block = b then v.stake else 0) + voteStakeIn l b := by
  by_cases h : v.block = b <;> simp [voteStakeIn, List.filter_cons, h]

theorem lookupA_foldl_stake (l : List Vote) (m0 : List (BlockId × StakeAmount)) (b : BlockId) :
    lookupA (l.foldl (fun m v => upsertA m v.block 0 (· + v.stake)) m0) b =
      match lookupA m0 b with
      | some x => some (x + voteStakeIn l b)
      | none => if b ∈ l.map (·.block) then some (voteStakeIn l b) else none := by
  induction l generalizing m0 with
  | nil =>
    cases h : lookupA m0 b <;> simp [h, voteStakeIn]
  | cons v rest ih =>
    simp only [List.foldl_cons]
    rw [ih, lookupA_upsertA]
    by_cases hvb : v.block = b
    · subst hvb
      cases h : lookupA m0 v.block with
      | some x => simp [h, voteStakeIn_cons, Nat.add_assoc]
      | none => simp [h, voteStakeIn_cons, Nat.add_assoc]
    · have hvb2 : ¬ b = v.block := fun hh => hvb hh.symm
      cases h : lookupA m0 b with
      | some x => simp [h, hvb, hvb2, voteStakeIn_cons]
      | none => simp [h, hvb, hvb2, voteStakeIn_cons]

theorem foldl_stake_sum (l : List Vote) (n : StakeAmount) :
    l.foldl (fun acc v => acc + v.stake) n = n + (l.map (·.stake)).sum := by
  induction l generalizing n with
  | nil => simp
  | cons v rest ih => simp [ih, Nat.add_assoc]

theorem blockStakeSum_eq_voteStakeIn (s : AlpenglowState) (slot : Slot) (path : VotePath)
    (b : BlockId) : blockStakeSum s slot path b = voteStakeIn (votesForSlotPath s slot path) b :=
  rfl

/-- Lookup characterisation of the `block_stakes` grouping built by the
`Certify` arm. -/
theorem lookupA_certify_blockStakes (s : AlpenglowState) (slot : Slot) (path : VotePath)
    (b : BlockId) :
    lookupA ((votesForSlotPath s slot path).foldl
        (fun m v => upsertA m v.block 0 (· + v.stake)) []) b =
      if b ∈ (votesForSlotPath s slot path).map (·.block)
      then some (blockStakeSum s slot path b) else none := by
  rw [lookupA_foldl_stake]
  simp [lookupA, blockStakeSum_eq_voteStakeIn]

/-! ## C1: the `Certify` action -/

/-- Claim C1. --  `Certify(slot, path)` scans all recorded votes for `slot` with
matching `path` across all nodes, groups them by block and sums stake per
block; quorums are the integer-floor fractions `(80·total)/100` (Fast) and
`(60·total)/100` (Slow).  If no block reaches the quorum the state is
unchanged; otherwise a certificate for that slot, a qualifying block and that
block's accumulated stake is installed at `certificates[slot]`, and a
`FinalizedBlock` for the slot is appended to the ledger iff no ledger entry
with that slot already exists; no other state component changes. -/
theorem certify_installs_quorum_certificate (s : AlpenglowState) (slot : Slot)
    (path : VotePath) :
    stepA s (.Certify slot path) = some (certifyH s slot path) ∧
    (quorumFor s .Fast = (80 * s.total_stake) / 100 ∧
     quorumFor s .Slow = (60 * s.total_stake) / 100) ∧
    ((∀ b ∈ (votesForSlotPath s slot path).map (·.block),
        blockStakeSum s slot path b < quorumFor s path) →
      certifyH s slot path = s) ∧
    ((∃ b ∈ (votesForSlotPath s slot path).map (·.block),
        quorumFor s path ≤ blockStakeSum s slot path b) →
      ∃ b cv, b ∈ (votesForSlotPath s slot path).map (·.block) ∧
        quorumFor s path ≤ blockStakeSum s slot path b ∧
        (certifyH s slot path).certificates =
          insertA s.certificates slot ⟨cv, slot, b, blockStakeSum s slot path b, path⟩ ∧
        (certifyH s slot path).ledger =
          (if s.ledger.any (fun fb => fb.slot = slot) then s.ledger
           else s.ledger ++ [⟨slot, b, s.global_time, blockStakeSum s slot path b⟩]) ∧
        certifyH s slot path =
          { s with certificates := (certifyH s slot path).certificates,
                   ledger := (certifyH s slot path).ledger }) := by
  refine ⟨rfl, ⟨rfl, rfl⟩, ?_, ?_⟩
  · -- no block reaches the quorum: the state is unchanged
    intro hall
    have hfind : ((votesForSlotPath s slot path).foldl
        (fun m v => upsertA m v.block 0 (· + v.stake)) []).find?
        (fun p => quorumFor s path ≤ p.2) = none := by
      apply List.find?_eq_none.mpr
      intro p hp
      have hnd := nodup_keys_foldl_upsertA (fun v : Vote => v.block) 0
        (fun v x => x + v.stake) (votesForSlotPath s slot path) [] (by simp)
      have hl : lookupA ((votesForSlotPath s slot path).foldl
          (fun m v => upsertA m v.block 0 (· + v.stake)) []) p.1 = some p.2 :=
        lookupA_of_mem_nodup hnd (by simpa using hp)
      rw [lookupA_certify_blockStakes] at hl
      by_cases hb : p.1 ∈ (votesForSlotPath s slot path).map (·.block)
      · rw [if_pos hb] at hl
        have hlt := hall p.1 hb
        simp only [Option.some.injEq] at hl
        have hle : ¬ (quorumFor s path ≤ p.2) := by rw [← hl]; exact Nat.not_le.mpr hlt
        simp [hle]
      · rw [if_neg hb] at hl
        exact absurd hl (by simp)
    simp only [certifyH]
    rw [hfind]
  · -- some block reaches the quorum: certificate installed, ledger appended
    intro hex
    have hsome : (((votesForSlotPath s slot path).foldl
        (fun m v => upsertA m v.block 0 (· + v.stake)) []).find?
        (fun p => quorumFor s path ≤ p.2)).isSome := by
      rw [List.find?_isSome]
      obtain ⟨b, hb, hq⟩ := hex
      refine ⟨(b, blockStakeSum s slot path b), ?_, by simpa using hq⟩
      apply mem_of_lookupA (a := b)
      rw [lookupA_certify_blockStakes, if_pos hb]
    obtain ⟨p₀, hfind⟩ := Option.isSome_iff_exists.mp hsome
    obtain ⟨b₀, t₀⟩ := p₀
    have hpred := List.find?_some hfind
    have hmem := List.mem_of_find?_eq_some hfind
    have hnd := nodup_keys_foldl_upsertA (fun v : Vote => v.block) 0
      (fun v x => x + v.stake) (votesForSlotPath s slot path) [] (by simp)
    have hl : lookupA ((votesForSlotPath s slot path).foldl
        (fun m v => upsertA m v.block 0 (· + v.stake)) []) b₀ = some t₀ :=
      lookupA_of_mem_nodup hnd hmem
    rw [lookupA_certify_blockStakes] at hl
    by_cases hb : b₀ ∈ (votesForSlotPath s slot path).map (·.block)
    case neg => rw [if_neg hb] at hl; exact absurd hl (by simp)
    rw [if_pos hb] at hl
    simp only [Option.some.injEq] at hl
    subst hl
    have hq : quorumFor s path ≤ blockStakeSum s slot path b₀ := by simpa using hpred
    have hcv : (lookupA ((votesForSlotPath s slot path).foldl
        (fun m v => upsertA m v.block [] (fun set => insertS set v)) []) b₀).isSome := by
      rw [lookupA_foldl_upsertA_isSome (fun v : Vote => v.block) [] (fun v set => insertS set v)]
      exact Or.inr hb
    obtain ⟨cv, hcv⟩ := Option.isSome_iff_exists.mp hcv
    refine ⟨b₀, cv, hb, hq, ?_⟩
    simp only [certifyH]
    rw [hfind]
    dsimp only
    rw [hcv]
    by_cases hled : s.ledger.any (fun fb => fb.slot = slot)
    · simp [hled]
    · simp [hled]

/-- A one-node state (stake 100) in which node 0 has voted for block 1 on the
fast path in slot 1. -/
def c1state : AlpenglowState :=
  { AlpenglowState.new [0] [(0, 100)] with
    votes := [(0, [(1, [⟨0, 1, 1, .Fast, 100⟩]), (2, []), (3, []), (4, []), (5, [])])] }

theorem certify_installs_quorum_certificate_witness :
    (∃ b ∈ (votesForSlotPath c1state 1 .Fast).map (·.block),
      quorumFor c1state .Fast ≤ blockStakeSum c1state 1 .Fast b) ∧
    (certifyH c1state 1 .Fast).ledger.length = 1 := by
  refine ⟨by decide, ?_⟩
  obtain ⟨b, cv, hb, hq, hc, hl, hfr⟩ :=
    (certify_installs_quorum_certificate c1state 1 .Fast).2.2.2 (by decide)
  rw [hl]
  have hled : c1state.ledger = [] := rfl
  rw [hled]
  simp

/-! ## C3: the `SkipCert` action -/

/-- Claim C3. --  `SkipCert(slot)` installs a skip certificate at `skip_certs[slot]`
iff (a) the number of nodes whose timeout count for the slot has reached their
threshold is at least `(60·|nodes|)/100` and (b) the aggregated stake of all
recorded votes for the slot (over both paths) meets the slow quorum; the
installed certificate's `timeout_votes` is the union (set) of all votes
observed for the slot and its `total_stake` is their stake sum; when either
condition fails the state is unchanged. -/
theorem skip_cert_requires_timeouts_and_quorum (s : AlpenglowState) (slot : Slot) :
    stepA s (.SkipCert slot) = some (skipCertH s slot) ∧
    (((60 * s.nodes.length) / 100 ≤ timedOutNodeCount s slot) →
      (s.slow_quorum_stake ≤ ((allSlotVotes s slot).map (·.stake)).sum) →
      ∃ tv, (∀ v, v ∈ tv ↔ v ∈ allSlotVotes s slot) ∧
        skipCertH s slot = { s with skip_certs := insertA s.skip_certs slot ⟨slot, tv, ((allSlotVotes s slot).map (·.stake)).sum⟩ }) ∧
    ((timedOutNodeCount s slot < (60 * s.nodes.length) / 100 ∨
      ((allSlotVotes s slot).map (·.stake)).sum < s.slow_quorum_stake) →
      skipCertH s slot = s) := by
  refine ⟨rfl, ?_, ?_⟩
  · intro h1 h2
    refine ⟨(allSlotVotes s slot).foldl insertS [],
      fun v => by simp [mem_foldl_insertS], ?_⟩
    simp only [skipCertH, foldl_stake_sum, Nat.zero_add]
    rw [if_pos h1, if_pos h2]
  · intro h
    simp only [skipCertH, foldl_stake_sum, Nat.zero_add]
    rcases h with h | h
    · rw [if_neg (Nat.not_le.mpr h)]
    · by_cases h1 : (60 * s.nodes.length) / 100 ≤ timedOutNodeCount s slot
      · rw [if_pos h1, if_neg (Nat.not_le.mpr h)]
      · rw [if_neg h1]

/-- Per-slot timeout map of a node that has reached its threshold at slot 1. -/
def tiHit : List (Slot × TimeoutInfo) :=
  [(1, ⟨3, 0, 3⟩), (2, ⟨0, 0, 3⟩), (3, ⟨0, 0, 3⟩), (4, ⟨0, 0, 3⟩), (5, ⟨0, 0, 3⟩)]

/-- Per-slot timeout map of a node that has not timed out. -/
def tiMiss : List (Slot × TimeoutInfo) :=
  [(1, ⟨0, 0, 3⟩), (2, ⟨0, 0, 3⟩), (3, ⟨0, 0, 3⟩), (4, ⟨0, 0, 3⟩), (5, ⟨0, 0, 3⟩)]

/-- Per-slot votes of a node holding one slow-path vote for block 0 at slot 1. -/
def slowVoteAt (n : NodeId) : List (Slot × List Vote) :=
  [(1, [⟨n, 1, 0, .Slow, 100⟩]), (2, []), (3, []), (4, []), (5, [])]

/-- Four equal-stake nodes; nodes 0–2 have timed out at slot 1 and hold one
slow vote each (stake 300 ≥ slow quorum 240). -/
def c3state : AlpenglowState :=
  { AlpenglowState.new [0, 1, 2, 3] [(0, 100), (1, 100), (2, 100), (3, 100)] with
    timeouts := [(0, tiHit), (1, tiHit), (2, tiHit), (3, tiMiss)]
    votes := [(0, slowVoteAt 0), (1, slowVoteAt 1), (2, slowVoteAt 2),
              (3, [(1, []), (2, []), (3, []), (4, []), (5, [])])] }

theorem skip_cert_requires_timeouts_and_quorum_witness :
    ((60 * c3state.nodes.length) / 100 ≤ timedOutNodeCount c3state 1) ∧
    (c3state.slow_quorum_stake ≤ ((allSlotVotes c3state 1).map (·.stake)).sum) ∧
    (lookupA (skipCertH c3state 1).skip_certs 1).isSome := by
  refine ⟨by decide, by decide, ?_⟩
  obtain ⟨tv, htv, heq⟩ :=
    (skip_cert_requires_timeouts_and_quorum c3state 1).2.1 (by decide) (by decide)
  rw [heq]
  simp [lookupA_insertA]

/-! ## C7: `ByzantineVote` with the `Equivocation` strategy -/

/-- The recorded votes of `node` for `slot` (the nested map lookup). -/
def votesAt (s : AlpenglowState) (node : NodeId) (slot : Slot) : Option (List Vote) :=
  (lookupA s.votes node).bind (fun nm => lookupA nm slot)

/-- One `ByzantineVote(node, Equivocation, slot)` step on a Byzantine node with
an existing vote sequence: exactly the two fast votes for blocks 0 and 1,
stamped with the node's current stake, are appended; nothing else changes. -/
theorem byzEquivStep (s : AlpenglowState) (node : NodeId) (slot : Slot)
    (bstrat : ByzantineStrategy) (nm : List (Slot × List Vote)) (vs : List Vote)
    (hstatus : lookupA s.status node = some (.Byzantine bstrat))
    (hnm : lookupA s.votes node = some nm) (hvs : lookupA nm slot = some vs) :
    ∃ s', stepA s (.ByzantineVote node .Equivocation slot) = some s' ∧
      s' = { s with votes := s'.votes } ∧
      votesAt s' node slot = some (vs ++
        [⟨node, slot, 0, .Fast, (lookupA s.stake_distribution node).getD 0⟩,
         ⟨node, slot, 1, .Fast, (lookupA s.stake_distribution node).getD 0⟩]) ∧
      (∀ n', n' ≠ node → lookupA s'.votes n' = lookupA s.votes n') ∧
      (∀ sl', sl' ≠ slot → votesAt s' node sl' = votesAt s node sl') := by
  set stake := (lookupA s.stake_distribution node).getD 0 with hstake
  refine ⟨add_vote_to_state (add_vote_to_state s ⟨node, slot, 0, .Fast, stake⟩)
    ⟨node, slot, 1, .Fast, stake⟩, ?_, rfl, ?_, ?_, ?_⟩
  · simp [stepA, byzantineVoteH, hstatus, execute_byzantine_strategy, addVotes, hstake]
  · simp [votesAt, add_vote_to_state, lookupA_updateA, hnm, hvs]
  · intro n' hn'
    have : ¬ (node = n') := fun h => hn' h.symm
    simp [add_vote_to_state, lookupA_updateA, this]
  · intro sl' hsl'
    have hne : ¬ (slot = sl') := fun h => hsl' h.symm
    simp [votesAt, add_vote_to_state, lookupA_updateA, hnm, hne]

/-- Claim C7. --  For a node whose status is Byzantine, `ByzantineVote(node,
Equivocation, slot)` appends exactly two fast-path votes — block 0 then block
1, each stamped with the node's current stake — to the node's vote sequence
for the slot, with no de-duplication (a second application accumulates the
duplicates); for a node whose status is present but not Byzantine, the action
leaves the state unchanged. -/
theorem byzantine_equivocation_two_votes (s : AlpenglowState) (node : NodeId) (slot : Slot) :
    (∀ bstrat nm vs, lookupA s.status node = some (.Byzantine bstrat) →
      lookupA s.votes node = some nm → lookupA nm slot = some vs →
      ∃ s', stepA s (.ByzantineVote node .Equivocation slot) = some s' ∧
        s' = { s with votes := s'.votes } ∧
        votesAt s' node slot = some (vs ++
          [⟨node, slot, 0, .Fast, (lookupA s.stake_distribution node).getD 0⟩,
           ⟨node, slot, 1, .Fast, (lookupA s.stake_distribution node).getD 0⟩]) ∧
        (∀ n', n' ≠ node → lookupA s'.votes n' = lookupA s.votes n') ∧
        (∀ sl', sl' ≠ slot → votesAt s' node sl' = votesAt s node sl')) ∧
    (∀ bstrat nm vs s' s'', lookupA s.status node = some (.Byzantine bstrat) →
      lookupA s.votes node = some nm → lookupA nm slot = some vs →
      stepA s (.ByzantineVote node .Equivocation slot) = some s' →
      stepA s' (.ByzantineVote node .Equivocation slot) = some s'' →
      votesAt s'' node slot = some (vs ++
        [⟨node, slot, 0, .Fast, (lookupA s.stake_distribution node).getD 0⟩,
         ⟨node, slot, 1, .Fast, (lookupA s.stake_distribution node).getD 0⟩,
         ⟨node, slot, 0, .Fast, (lookupA s.stake_distribution node).getD 0⟩,
         ⟨node, slot, 1, .Fast, (lookupA s.stake_distribution node).getD 0⟩])) ∧
    (∀ st, lookupA s.status node = some st → (∀ bs, st ≠ .Byzantine bs) →
      stepA s (.ByzantineVote node .Equivocation slot) = some s) := by
  refine ⟨fun bstrat nm vs h1 h2 h3 => byzEquivStep s node slot bstrat nm vs h1 h2 h3, ?_, ?_⟩
  · intro bstrat nm vs s' s'' hstatus hnm hvs h1 h2
    obtain ⟨t, ht, hframe, hv, _, _⟩ := byzEquivStep s node slot bstrat nm vs hstatus hnm hvs
    rw [ht] at h1
    injection h1 with h1
    subst h1
    have hst' : t.status = s.status := by rw [hframe]
    have hsd' : t.stake_distribution = s.stake_distribution := by rw [hframe]
    cases hnm' : lookupA t.votes node with
    | none => rw [votesAt, hnm'] at hv; exact absurd hv (by simp)
    | some nm' =>
      rw [votesAt, hnm'] at hv
      simp only [Option.some_bind] at hv
      obtain ⟨t₂, ht₂, _, hv₂, _, _⟩ := byzEquivStep t node slot bstrat nm' _
        (by rw [hst']; exact hstatus) hnm' hv
      rw [ht₂] at h2
      injection h2 with h2
      subst h2
      rw [hsd'] at hv₂
      simpa using hv₂
  · intro st hstatus hnb
    cases st with
    | Byzantine bs => exact absurd rfl (hnb bs)
    | Honest => simp [stepA, byzantineVoteH, hstatus]
    | Crashed since => simp [stepA, byzantineVoteH, hstatus]

/-- A one-node state whose single node (stake 100) is Byzantine. -/
def c7state : AlpenglowState :=
  { AlpenglowState.new [0] [(0, 100)] with status := [(0, .Byzantine .Equivocation)] }

/-- The state after one `ByzantineVote(0, Equivocation, 1)` step on `c7state`. -/
def c7res : AlpenglowState :=
  add_vote_to_state (add_vote_to_state c7state ⟨0, 1, 0, .Fast, 100⟩) ⟨0, 1, 1, .Fast, 100⟩

theorem byzantine_equivocation_two_votes_witness :
    stepA c7state (.ByzantineVote 0 .Equivocation 1) = some c7res ∧
    votesAt c7res 0 1 = some [⟨0, 1, 0, .Fast, 100⟩, ⟨0, 1, 1, .Fast, 100⟩] := by
  obtain ⟨s', h1, hfr, hv, _, _⟩ :=
    (byzantine_equivocation_two_votes c7state 0 1).1 .Equivocation
      [(1, []), (2, []), (3, []), (4, []), (5, [])] [] rfl rfl rfl
  have hstep : stepA c7state (.ByzantineVote 0 .Equivocation 1) = some c7res := by rfl
  rw [hstep] at h1
  injection h1 with h1
  subst h1
  exact ⟨hstep, by simpa using hv⟩

/-! ## C5: clock coupling -/

/-- Strategies whose execution may advance the clock: a `TimingAttack` with
`delay_votes` set, possibly reached through `AdaptiveBehavior` dispatch. -/
def delaysTime : ByzantineStrategy → Bool
  | .TimingAttack delay_votes _ _ => delay_votes
  | .AdaptiveBehavior p f _ => delaysTime p || delaysTime f
  | _ => false

/-- The actions that may modify `global_time` according to the code:
`AdvanceTime`, `TimingManipulation`, and `ByzantineVote` executing a delaying
`TimingAttack`. -/
def mayShiftTime : AlpenglowAction → Bool
  | .AdvanceTime _ => true
  | .TimingManipulation _ _ _ => true
  | .ByzantineVote _ strategy _ => delaysTime strategy
  | _ => false

/-- The actions the claim allows to modify `global_time` (no
`TimingManipulation`). -/
def claimShiftTime : AlpenglowAction → Bool
  | .AdvanceTime _ => true
  | .ByzantineVote _ strategy _ => delaysTime strategy
  | _ => false

theorem addVotes_shape (s : AlpenglowState) (n : NodeId) (sl : Slot) (st : StakeAmount)
    (bps : List (BlockId × VotePath)) :
    addVotes s n sl st bps = { s with votes := (addVotes s n sl st bps).votes } := by
  induction bps generalizing s with
  | nil => rfl
  | cons bp rest ih =>
    show addVotes (add_vote_to_state s ⟨n, sl, bp.1, bp.2, st⟩) n sl st rest = _
    rw [ih (add_vote_to_state s ⟨n, sl, bp.1, bp.2, st⟩)]
    rfl

theorem add_vote_shape (s : AlpenglowState) (v : Vote) :
    add_vote_to_state s v = { s with votes := (add_vote_to_state s v).votes } := rfl

theorem execCoalition_shape {s s' : AlpenglowState} {node : NodeId}
    {members : List NodeId} {atk : CoalitionAttackType} {slot : Slot} {stake : StakeAmount}
    (h : execute_coalition_attack s node members atk slot stake = some s') :
    s' = { s with votes := s'.votes } := by
  unfold execute_coalition_attack at h
  by_cases hm : node ∉ members
  · rw [if_pos hm] at h
    injection h with h
    subst h
    rfl
  · rw [if_neg hm] at h
    cases atk with
    | SplitVote target_blocks =>
      dsimp only at h
      by_cases ht : target_blocks.isEmpty
      · rw [if_pos ht] at h; exact absurd h (by simp)
      · rw [if_neg ht] at h
        injection h with h
        subst h
        rfl
    | DelayedFlood delay_until_slot =>
      dsimp only at h
      split at h <;> (injection h with h; subst h)
      · exact addVotes_shape ..
      · rfl
    | StrategicTargeting hps thr =>
      dsimp only at h
      split at h <;> (injection h with h; subst h)
      · exact addVotes_shape ..
      · rfl
    | CertificateManipulation target_path mtype =>
      cases mtype with
      | PreventCertification => dsimp only at h; injection h with h; subst h; rfl
      | ConflictingCertificates => dsimp only at h; injection h with h; subst h; rfl
      | DelayedCertification d =>
        dsimp only at h
        split at h <;> (injection h with h; subst h) <;> rfl

theorem execByz_shape {s s' : AlpenglowState} {node : NodeId}
    {strategy : ByzantineStrategy} {slot : Slot} {stake : StakeAmount}
    (h : execute_byzantine_strategy s node strategy slot stake = some s') :
    s' = { s with votes := s'.votes, global_time := s'.global_time } := by
  induction strategy generalizing s s' with
  | Equivocation =>
    simp only [execute_byzantine_strategy] at h
    injection h with h; subst h
    rw [addVotes_shape s node slot stake _]
  | WithholdVotes =>
    simp only [execute_byzantine_strategy] at h
    injection h with h; subst h; rfl
  | RandomVotes =>
    simp only [execute_byzantine_strategy] at h
    injection h with h; subst h; rfl
  | SelectiveEquivocation thr targets =>
    simp only [execute_byzantine_strategy] at h
    split at h <;> (injection h with h; subst h)
    · rw [addVotes_shape s node slot stake _]
    · rfl
  | AdaptiveBehavior p f thr ihp ihf =>
    simp only [execute_byzantine_strategy] at h
    split at h
    · exact ihf h
    · exact ihp h
  | CoalitionAttack members atk =>
    simp only [execute_byzantine_strategy] at h
    rw [execCoalition_shape h]
  | TimingAttack delay_votes max_delay target_path =>
    simp only [execute_byzantine_strategy] at h
    injection h with h; subst h
    split <;> rfl
  | StakeBasedAttack reserve thr margin =>
    simp only [execute_byzantine_strategy] at h
    split at h
    · split at h <;> (injection h with h; subst h)
      · rw [addVotes_shape s node slot stake _]
      · rfl
    · injection h with h; subst h; rfl

theorem execByz_time {s s' : AlpenglowState} {node : NodeId}
    {strategy : ByzantineStrategy} {slot : Slot} {stake : StakeAmount}
    (hd : delaysTime strategy = false)
    (h : execute_byzantine_strategy s node strategy slot stake = some s') :
    s'.global_time = s.global_time := by
  induction strategy generalizing s s' with
  | Equivocation =>
    simp only [execute_byzantine_strategy] at h
    injection h with h; subst h
    rw [addVotes_shape s node slot stake _]
  | WithholdVotes =>
    simp only [execute_byzantine_strategy] at h
    injection h with h; subst h; rfl
  | RandomVotes =>
    simp only [execute_byzantine_strategy] at h
    injection h with h; subst h; rfl
  | SelectiveEquivocation thr targets =>
    simp only [execute_byzantine_strategy] at h
    split at h <;> (injection h with h; subst h)
    · rw [addVotes_shape s node slot stake _]
    · rfl
  | AdaptiveBehavior p f thr ihp ihf =>
    simp only [delaysTime, Bool.or_eq_false_iff] at hd
    simp only [execute_byzantine_strategy] at h
    split at h
    · exact ihf hd.2 h
    · exact ihp hd.1 h
  | CoalitionAttack members atk =>
    simp only [execute_byzantine_strategy] at h
    rw [execCoalition_shape h]
  | TimingAttack delay_votes max_delay target_path =>
    simp only [delaysTime] at hd
    simp only [execute_byzantine_strategy, hd] at h
    injection h with h; subst h
    rfl
  | StakeBasedAttack reserve thr margin =>
    simp only [execute_byzantine_strategy] at h
    split at h
    · split at h <;> (injection h with h; subst h)
      · rw [addVotes_shape s node slot stake _]
      · rfl
    · injection h with h; subst h; rfl

theorem voteH_shape {s s' : AlpenglowState} {node : NodeId} {slot : Slot} {block : BlockId}
    {path : VotePath} (h : voteH s node slot block path = some s') :
    s' = { s with votes := s'.votes } := by
  unfold voteH at h
  cases hl : lookupA s.status node with
  | none => rw [hl] at h; exact absurd h (by simp)
  | some st =>
    rw [hl] at h
    cases st with
    | Honest => dsimp only at h; injection h with h; subst h; rfl
    | Byzantine strat => dsimp only at h; injection h with h; subst h; rfl
    | Crashed since => dsimp only at h; injection h with h; subst h; rfl

theorem byzantineVoteH_shape {s s' : AlpenglowState} {node : NodeId}
    {strategy : ByzantineStrategy} {slot : Slot}
    (h : byzantineVoteH s node strategy slot = some s') :
    s' = { s with votes := s'.votes, global_time := s'.global_time } := by
  unfold byzantineVoteH at h
  cases hl : lookupA s.status node with
  | none => rw [hl] at h; exact absurd h (by simp)
  | some st =>
    rw [hl] at h
    cases st with
    | Honest => dsimp only at h; injection h with h; subst h; rfl
    | Byzantine strat => dsimp only at h; exact execByz_shape h
    | Crashed since => dsimp only at h; injection h with h; subst h; rfl

theorem byzantineVoteH_time {s s' : AlpenglowState} {node : NodeId}
    {strategy : ByzantineStrategy} {slot : Slot} (hd : delaysTime strategy = false)
    (h : byzantineVoteH s node strategy slot = some s') :
    s'.global_time = s.global_time := by
  unfold byzantineVoteH at h
  cases hl : lookupA s.status node with
  | none => rw [hl] at h; exact absurd h (by simp)
  | some st =>
    rw [hl] at h
    cases st with
    | Honest => dsimp only at h; injection h with h; subst h; rfl
    | Byzantine strat => dsimp only at h; exact execByz_time hd h
    | Crashed since => dsimp only at h; injection h with h; subst h; rfl

theorem certifyH_frame (s : AlpenglowState) (slot : Slot) (path : VotePath) :
    ((certifyH s slot path).ledger = s.ledger ∨
      ∃ fb, (certifyH s slot path).ledger = s.ledger ++ [fb] ∧
        ∀ fb' ∈ s.ledger, fb'.slot ≠ fb.slot) ∧
    (certifyH s slot path).finalization_times = s.finalization_times ∧
    (certifyH s slot path).global_time = s.global_time := by
  simp only [certifyH]
  split
  · exact ⟨Or.inl rfl, rfl, rfl⟩
  · rename_i block tot heq
    split
    · exact ⟨Or.inl rfl, rfl, rfl⟩
    · rename_i vset hset
      split
      · exact ⟨Or.inl rfl, rfl, rfl⟩
      · rename_i hled
        refine ⟨Or.inr ⟨⟨slot, block, s.global_time, tot⟩, rfl, ?_⟩, rfl, rfl⟩
        simp only [List.any_eq_true, decide_eq_true_eq, not_exists, not_and] at hled
        intro fb' hfb' hcontra
        exact hled fb' hfb' hcontra

theorem rotate_leader_shape {s s' : AlpenglowState} {slot : Slot}
    (h : s.rotate_leader slot = some s') :
    s' = { s with leader_rotation := s'.leader_rotation } := by
  unfold AlpenglowState.rotate_leader at h
  split at h
  · exact absurd h (by simp)
  · injection h with h; subst h; rfl

/-- Frame facts of one (non-panicking) transition: the ledger either stays or
grows by one block whose slot is fresh; `finalization_times` never changes;
and `global_time` is preserved by every action outside `mayShiftTime`. -/
theorem stepA_frame {s s' : AlpenglowState} {a : AlpenglowAction}
    (h : stepA s a = some s') :
    (s'.ledger = s.ledger ∨
      ∃ fb, s'.ledger = s.ledger ++ [fb] ∧ ∀ fb' ∈ s.ledger, fb'.slot ≠ fb.slot) ∧
    s'.finalization_times = s.finalization_times ∧
    (mayShiftTime a = false → s'.global_time = s.global_time) := by
  cases a with
  | AdvanceTime delta =>
    simp only [stepA] at h
    injection h with h
    subst h
    refine ⟨Or.inl ?_, ?_, fun hm => ?_⟩
    · split <;> rfl
    · split <;> rfl
    · simp [mayShiftTime] at hm
  | Vote node slot block path =>
    rw [voteH_shape h]
    exact ⟨Or.inl rfl, rfl, fun _ => rfl⟩
  | ByzantineVote node strategy slot =>
    have hs := byzantineVoteH_shape h
    refine ⟨Or.inl (by rw [hs]), by rw [hs], fun hm => ?_⟩
    exact byzantineVoteH_time (by simpa [mayShiftTime] using hm) h
  | Certify slot path =>
    simp only [stepA] at h
    injection h with h
    subst h
    obtain ⟨h1, h2, h3⟩ := certifyH_frame s slot path
    exact ⟨h1, h2, fun _ => h3⟩
  | Timeout node slot =>
    simp only [stepA] at h
    injection h with h
    subst h
    exact ⟨Or.inl rfl, rfl, fun _ => rfl⟩
  | SkipCert slot =>
    simp only [stepA] at h
    injection h with h
    subst h
    refine ⟨Or.inl ?_, ?_, fun _ => ?_⟩ <;>
      (simp only [skipCertH]; repeat' split) <;> rfl
  | NetworkPartition nodes_a nodes_b =>
    simp only [stepA] at h
    injection h with h
    subst h
    exact ⟨Or.inl rfl, rfl, fun _ => rfl⟩
  | HealPartition =>
    simp only [stepA] at h
    injection h with h
    subst h
    exact ⟨Or.inl rfl, rfl, fun _ => rfl⟩
  | FormCoalition members strategy =>
    simp only [stepA] at h
    injection h with h
    subst h
    exact ⟨Or.inl rfl, rfl, fun _ => rfl⟩
  | CoordinateAttack coalition_index target_slot =>
    simp only [stepA] at h
    split at h
    · injection h with h; subst h; exact ⟨Or.inl rfl, rfl, fun _ => rfl⟩
    · split at h <;> (injection h with h; subst h) <;> exact ⟨Or.inl rfl, rfl, fun _ => rfl⟩
  | AdaptStrategy node new_strategy reason =>
    simp only [stepA] at h
    injection h with h
    subst h
    exact ⟨Or.inl rfl, rfl, fun _ => rfl⟩
  | TimingManipulation node delay_ms target_slot =>
    simp only [stepA] at h
    injection h with h
    subst h
    refine ⟨Or.inl rfl, rfl, fun hm => ?_⟩
    simp [mayShiftTime] at hm
  | SendMessage source dest content priority =>
    simp only [stepA] at h
    injection h with h
    subst h
    refine ⟨Or.inl ?_, ?_, fun _ => ?_⟩ <;>
      (simp only [sendMessageH]; repeat' split) <;> rfl
  | DeliverMessage message_id =>
    simp only [stepA] at h
    injection h with h
    subst h
    refine ⟨Or.inl ?_, ?_, fun _ => ?_⟩ <;>
      (simp only [deliverMessageH]; repeat' split) <;> rfl
  | DropMessage message_id reason =>
    simp only [stepA] at h
    injection h with h
    subst h
    exact ⟨Or.inl rfl, rfl, fun _ => rfl⟩
  | InjectNetworkFailure failure =>
    simp only [stepA] at h
    injection h with h
    subst h
    exact ⟨Or.inl rfl, rfl, fun _ => rfl⟩
  | RecoverFromFailure failure_index =>
    simp only [stepA] at h
    split at h <;> (injection h with h; subst h) <;> exact ⟨Or.inl rfl, rfl, fun _ => rfl⟩
  | UpdateLatencyModel new_model =>
    simp only [stepA] at h
    injection h with h
    subst h
    exact ⟨Or.inl rfl, rfl, fun _ => rfl⟩
  | AdjustBandwidth source dest new_bandwidth =>
    simp only [stepA] at h
    injection h with h
    subst h
    exact ⟨Or.inl rfl, rfl, fun _ => rfl⟩
  | SimulateCongestion links intensity =>
    simp only [stepA] at h
    injection h with h
    subst h
    exact ⟨Or.inl rfl, rfl, fun _ => rfl⟩
  | DistributeRewards epoch rewards =>
    simp only [stepA] at h
    injection h with h
    subst h
    refine ⟨Or.inl ?_, ?_, fun _ => ?_⟩ <;>
      (simp only [AlpenglowState.distribute_rewards]; repeat' split) <;> rfl
  | SlashValidator evidence =>
    simp only [stepA] at h
    injection h with h
    subst h
    refine ⟨Or.inl ?_, ?_, fun _ => ?_⟩ <;>
      (simp only [AlpenglowState.apply_slashing]; repeat' split) <;> rfl
  | WithdrawRewards node amount =>
    simp only [stepA] at h
    injection h with h
    subst h
    refine ⟨Or.inl ?_, ?_, fun _ => ?_⟩ <;> (repeat' split) <;> rfl
  | StakeDeposit node amount =>
    simp only [stepA] at h
    injection h with h
    subst h
    refine ⟨Or.inl ?_, ?_, fun _ => ?_⟩ <;> (repeat' split) <;> rfl
  | StakeWithdrawal node amount =>
    simp only [stepA] at h
    injection h with h
    subst h
    refine ⟨Or.inl ?_, ?_, fun _ => ?_⟩ <;> (repeat' split) <;> rfl
  | ReportSlashing reporter evidence =>
    simp only [stepA] at h
    injection h with h
    subst h
    exact ⟨Or.inl rfl, rfl, fun _ => rfl⟩
  | UpdateEconomicParameters r1 r2 =>
    simp only [stepA] at h
    injection h with h
    subst h
    exact ⟨Or.inl rfl, rfl, fun _ => rfl⟩
  | PropagateErasureBlock node erasure_block =>
    simp only [stepA] at h
    split at h
    · exact absurd h (by simp)
    · injection h with h
      subst h
      refine ⟨Or.inl ?_, ?_, fun _ => ?_⟩ <;>
        (simp only [AlpenglowState.propagate_chunks]; repeat' split) <;> rfl
  | PropagateChunk node chunk target_nodes =>
    simp only [stepA] at h
    injection h with h
    subst h
    exact ⟨Or.inl rfl, rfl, fun _ => rfl⟩
  | RequestMissingChunks node block_id missing_chunks =>
    simp only [stepA] at h
    injection h with h
    subst h
    exact ⟨Or.inl rfl, rfl, fun _ => rfl⟩
  | ReconstructBlock node block_id =>
    simp only [stepA] at h
    injection h with h
    subst h
    refine ⟨Or.inl ?_, ?_, fun _ => ?_⟩ <;> (repeat' split) <;> rfl
  | AssignRelayNodes block_id relays =>
    simp only [stepA] at h
    injection h with h
    subst h
    exact ⟨Or.inl rfl, rfl, fun _ => rfl⟩
  | ProposeBlock leader slot block window =>
    simp only [stepA] at h
    split at h
    · exact absurd h (by simp)
    · injection h with h
      subst h
      refine ⟨Or.inl ?_, ?_, fun _ => ?_⟩ <;> split <;> rfl
  | RotateLeader new_leader slot =>
    simp only [stepA] at h
    rw [rotate_leader_shape h]
    exact ⟨Or.inl rfl, rfl, fun _ => rfl⟩
  | UpdateWindow slot window_size finality_depth =>
    simp only [stepA] at h
    injection h with h
    subst h
    refine ⟨Or.inl ?_, ?_, fun _ => ?_⟩ <;>
      (simp only [AlpenglowState.update_window]; repeat' split) <;> rfl

/-- Claim C5 (amended). --  Only `AdvanceTime`, `TimingManipulation`, and a
`ByzantineVote` executing a `TimingAttack` strategy with `delay_votes` set may
change `global_time`; every other action preserves it. -/
theorem clock_coupling_amended (s : AlpenglowState) (a : AlpenglowAction)
    (s' : AlpenglowState) (hm : mayShiftTime a = false) (h : stepA s a = some s') :
    s'.global_time = s.global_time :=
  (stepA_frame h).2.2 hm

/-- Claim C5 (counterexample to the claim as stated). --  `TimingManipulation` is
neither `AdvanceTime` nor a delaying `ByzantineVote`, yet it advances
`global_time` by 10 (from 0 to 10 on the initial one-node state). -/
theorem clock_coupling_counterexample :
    claimShiftTime (.TimingManipulation 0 5 1) = false ∧
    stepA (AlpenglowState.new [0] [(0, 100)]) (.TimingManipulation 0 5 1) =
      some { AlpenglowState.new [0] [(0, 100)] with global_time := 10 } ∧
    ¬ (({ AlpenglowState.new [0] [(0, 100)] with global_time := 10 } :
        AlpenglowState).global_time = (AlpenglowState.new [0] [(0, 100)]).global_time) :=
  ⟨rfl, rfl, by decide⟩

theorem clock_coupling_amended_witness :
    mayShiftTime .HealPartition = false ∧
    (({ AlpenglowState.new [0] [(0, 100)] with network_partition := none } :
        AlpenglowState).global_time = (AlpenglowState.new [0] [(0, 100)]).global_time) :=
  ⟨rfl, clock_coupling_amended (AlpenglowState.new [0] [(0, 100)]) .HealPartition
    { AlpenglowState.new [0] [(0, 100)] with network_partition := none } rfl rfl⟩

/-! ## C6: the ledger invariant -/

/-- Claim C6 (amended). --  In every reachable state the ledger contains at most one
`FinalizedBlock` per slot (the slot numbers of the ledger entries are
pairwise distinct). -/
theorem ledger_at_most_one_per_slot (nodes : List NodeId)
    (stakes : List (NodeId × StakeAmount)) (s : AlpenglowState)
    (h : Reachable (AlpenglowState.new nodes stakes) s) :
    (s.ledger.map (·.slot)).Nodup := by
  induction h with
  | refl => simp [AlpenglowState.new]
  | step hr hstep ih =>
    rcases (stepA_frame hstep).1 with he | ⟨fb, he, hfresh⟩
    · rw [he]; exact ih
    · rw [he]
      simp only [List.map_append, List.map_cons, List.map_nil]
      rw [List.nodup_append]
      refine ⟨ih, List.nodup_singleton _, ?_⟩
      intro x hx hx'
      simp only [List.mem_singleton] at hx'
      subst hx'
      obtain ⟨fb', hfb', hslot⟩ := List.mem_map.mp hx
      exact hfresh fb' hfb' hslot

theorem ledger_at_most_one_per_slot_witness :
    Reachable (AlpenglowState.new [0] [(0, 100)]) (AlpenglowState.new [0] [(0, 100)]) ∧
    (((AlpenglowState.new [0] [(0, 100)]).ledger.map (·.slot)).Nodup) :=
  ⟨.refl, ledger_at_most_one_per_slot [0] [(0, 100)] _ .refl⟩

/-- The initial one-node state for the ledger-order counterexample. -/
def c6init : AlpenglowState := AlpenglowState.new [0] [(0, 100)]

/-- The state reached from `c6init` by voting and certifying slot 2 first and
slot 1 second: the ledger is `[slot 2, slot 1]`. -/
def c6state : AlpenglowState :=
  { c6init with
    votes := [(0, [(1, [⟨0, 1, 0, .Fast, 100⟩]), (2, [⟨0, 2, 0, .Fast, 100⟩]),
                   (3, []), (4, []), (5, [])])]
    certificates := [(2, ⟨[⟨0, 2, 0, .Fast, 100⟩], 2, 0, 100, .Fast⟩),
                     (1, ⟨[⟨0, 1, 0, .Fast, 100⟩], 1, 0, 100, .Fast⟩)]
    ledger := [⟨2, 0, 0, 100⟩, ⟨1, 0, 0, 100⟩] }

/-- Claim C6 (counterexample to the claim as stated). --  `c6state` is reachable
(vote and certify slot 2, then vote and certify slot 1) and its ledger slots
`[2, 1]` are not strictly increasing, so the conjunction claimed as the ledger
invariant fails; the at-most-one-per-slot half still holds there. -/
theorem ledger_strictly_increasing_counterexample :
    stepsFrom c6init [.Vote 0 2 0 .Fast, .Certify 2 .Fast, .Vote 0 1 0 .Fast,
      .Certify 1 .Fast] = some c6state ∧
    Reachable c6init c6state ∧
    ¬ ((c6state.ledger.map (·.slot)).Nodup ∧
       (c6state.ledger.map (·.slot)).Pairwise (· < ·)) := by
  have hsteps : stepsFrom c6init [.Vote 0 2 0 .Fast, .Certify 2 .Fast, .Vote 0 1 0 .Fast,
      .Certify 1 .Fast] = some c6state := by rfl
  refine ⟨hsteps, reachable_of_stepsFrom .refl hsteps, ?_⟩
  intro ⟨h1, h2⟩
  have : c6state.ledger.map (·.slot) = [2, 1] := rfl
  rw [this] at h2
  simp at h2

/-! ## C10: `finalization_times` stays empty -/

/-- Claim C10. --  In every reachable state the `finalization_times` map is empty
(no action handler ever inserts into it), so
`check_finalization_time_bounds` holds at every slot and the
`bounded_finalization_time` property holds vacuously. -/
theorem finalization_times_always_empty (nodes : List NodeId)
    (stakes : List (NodeId × StakeAmount)) (s : AlpenglowState)
    (h : Reachable (AlpenglowState.new nodes stakes) s) :
    s.finalization_times = [] ∧
    (∀ slot, s.check_finalization_time_bounds slot = true) ∧
    bounded_finalization_time s = true := by
  have hempty : s.finalization_times = [] := by
    induction h with
    | refl => rfl
    | step hr hstep ih => rw [(stepA_frame hstep).2.1]; exact ih
  refine ⟨hempty, fun slot => ?_, ?_⟩
  · unfold AlpenglowState.check_finalization_time_bounds
    rw [hempty]
    rfl
  · unfold bounded_finalization_time
    rw [hempty]
    rfl

theorem finalization_times_always_empty_witness :
    Reachable (AlpenglowState.new [0] [(0, 100)]) (AlpenglowState.new [0] [(0, 100)]) ∧
    (AlpenglowState.new [0] [(0, 100)]).finalization_times = [] ∧
    bounded_finalization_time (AlpenglowState.new [0] [(0, 100)]) = true :=
  ⟨.refl, (finalization_times_always_empty [0] [(0, 100)] _ .refl).1,
    (finalization_times_always_empty [0] [(0, 100)] _ .refl).2.2⟩

/-! ## C2: honest no-equivocation -/

/-- The initial one-node state for the honest-equivocation run. -/
def c2init : AlpenglowState := AlpenglowState.new [0] [(0, 100)]

/-- The state after the honest node 0 votes for block 0 and then for block 1,
both at `(slot 1, Fast)`: the `Vote` guard only rejects a repeated
`(block, path)` pair, so both votes are recorded. -/
def c2state : AlpenglowState :=
  { c2init with
    votes := [(0, [(1, [⟨0, 1, 0, .Fast, 100⟩, ⟨0, 1, 1, .Fast, 100⟩]),
                   (2, []), (3, []), (4, []), (5, [])])] }

/-- Claim C2 (the code violates the claim). --  Two honest `Vote` actions from the
initial state reach a state in which the honest node 0 holds votes for two
different blocks at the same `(slot, path)`: the model's own
`honest_no_equivocation` property evaluates to `false` on a reachable state. -/
theorem honest_equivocation_reachable :
    stepsFrom c2init [.Vote 0 1 0 .Fast, .Vote 0 1 1 .Fast] = some c2state ∧
    Reachable c2init c2state ∧
    lookupA c2state.status 0 = some .Honest ∧
    (lookupA c2state.votes 0).bind (fun m => lookupA m 1) =
      some [⟨0, 1, 0, .Fast, 100⟩, ⟨0, 1, 1, .Fast, 100⟩] ∧
    honest_no_equivocation c2state = false := by
  have hsteps : stepsFrom c2init [.Vote 0 1 0 .Fast, .Vote 0 1 1 .Fast] = some c2state := by
    rfl
  exact ⟨hsteps, reachable_of_stepsFrom .refl hsteps, rfl, rfl, by decide⟩

/-! ## C4: economic conservation -/

/-- Four equal-stake nodes (total 400, initial pool 4000). -/
def c4init : AlpenglowState :=
  AlpenglowState.new [0, 1, 2, 3] [(0, 100), (1, 100), (2, 100), (3, 100)]

/-- The epoch-1 reward distribution for all four nodes, as
`calculate_epoch_rewards` produces it: 200 total epoch rewards, per node a
base of 50, a participation reward of 25 and an honest performance bonus of 2
— 77 credited per node (308 in total) against only 200 deducted. -/
def c4rewards : RewardDistribution :=
  ⟨1, 200, [(0, 50), (1, 50), (2, 50), (3, 50)], [(0, 2), (1, 2), (2, 2), (3, 2)],
   [(0, 25), (1, 25), (2, 25), (3, 25)]⟩

/-- The state after distributing `c4rewards`: balances 177 each, pool 3800. -/
def c4state : AlpenglowState :=
  { c4init with economic_state := { c4init.economic_state with
      validator_balances := [(0, 177), (1, 177), (2, 177), (3, 177)]
      rewards_pool := 3800 } }

/-- Claim C4 (the code violates the claim). --  Distributing the rewards computed by
the code's own `calculate_epoch_rewards` reaches a state where
`Σ balances + pool − total_slashed` equals 4508, exceeding the initial
`total stake + pool = 4400`: reward distribution credits participation and
bonus amounts that are not covered by the `total_rewards` deducted from the
pool, so the claimed conservation invariant fails on a reachable state. -/
theorem economic_conservation_violated :
    c4init.calculate_epoch_rewards 1 [0, 1, 2, 3] = c4rewards ∧
    stepA c4init (.DistributeRewards 1 c4rewards) = some c4state ∧
    Reachable c4init c4state ∧
    (c4init.economic_state.validator_balances.map (·.2)).sum +
      c4init.economic_state.rewards_pool = 4400 ∧
    c4init.economic_state.total_slashed = 0 ∧
    (c4state.economic_state.validator_balances.map (·.2)).sum +
      c4state.economic_state.rewards_pool = 4508 ∧
    ¬ ((c4state.economic_state.validator_balances.map (·.2)).sum +
        c4state.economic_state.rewards_pool ≤
      4400 + c4state.economic_state.total_slashed) := by
  have hcalc : c4init.calculate_epoch_rewards 1 [0, 1, 2, 3] = c4rewards := by
    simp [AlpenglowState.calculate_epoch_rewards, c4init, c4rewards, AlpenglowState.new,
      AlpenglowState.total_stake, lookupA, insertA, List.foldl, floorToNat]
    have e1 : (⌊(4000 : ℚ) * 20⁻¹⌋).toNat = 200 := by
      have h : ⌊(4000 : ℚ) * 20⁻¹⌋ = 200 := by norm_num
      rw [h]; rfl
    rw [e1]
    have e2 : (⌊((50 : ℚ)) * (100 / 400) * (2 / 10)⌋).toNat = 2 := by
      have h : ⌊((50 : ℚ)) * (100 / 400) * (2 / 10)⌋ = 2 := by norm_num
      rw [h]; rfl
    norm_num [e2]
    rfl
  have hstep : stepA c4init (.DistributeRewards 1 c4rewards) = some c4state := by rfl
  exact ⟨hcalc, hstep, .step .refl hstep, by decide, rfl, by decide, by decide⟩

/-! ## C8: Rotor reconstruction -/

/-- The erasure-coded block of the redundancy-1.0 scenario (block id 7). -/
def c8block : ErasureCodedBlock := create_erasure_coded_block ⟨7, 0⟩ 1

/-- A base one-node state for the reconstruction scenario. -/
def c8base : AlpenglowState := AlpenglowState.new [1] [(1, 100)]

/-- State `c8base` with block 7 registered and availability entries (one node each)
for chunk ids `0..9`. -/
def c8yes : AlpenglowState :=
  { c8base with erasure_coded_blocks := [(7, c8block)]
                chunk_availability := (List.range 10).map (fun c => ((7, c), [1])) }

/-- State `c8base` with block 7 registered and availability entries only for chunk
ids `0..8`. -/
def c8no : AlpenglowState :=
  { c8base with erasure_coded_blocks := [(7, c8block)]
                chunk_availability := (List.range 9).map (fun c => ((7, c), [1])) }

/-- Claim C8. --  When every availability entry is non-empty (as every inserting
code path guarantees), `can_reconstruct_block(block_id)` returns `true` iff
the block is registered and the number of distinct chunk ids with a non-empty
availability set reaches its `required_chunks`; for a block built by
`create_erasure_coded_block` with redundancy 1.0 (`required_chunks = 10`,
20 chunks in total), availability entries for chunk ids `0..9` make it
`true` while entries for only `0..8` leave it `false`. -/
theorem can_reconstruct_block_iff (s : AlpenglowState) (block_id : BlockId) :
    ((∀ e ∈ s.chunk_availability, e.2 ≠ []) →
      (s.can_reconstruct_block block_id = true ↔
        ∃ ecb, lookupA s.erasure_coded_blocks block_id = some ecb ∧
          ecb.required_chunks ≤ (dedupKeep ((s.chunk_availability.filter
            (fun e => e.1.1 = block_id ∧ e.2 ≠ [])).map (fun e => e.1.2))).length)) ∧
    c8block.required_chunks = 10 ∧
    c8block.chunks.length = 20 ∧
    c8yes.can_reconstruct_block 7 = true ∧
    c8no.can_reconstruct_block 7 = false := by
  refine ⟨?_, rfl, ?_, by decide, by decide⟩
  · intro hne
    have hfilter : s.chunk_availability.filter (fun e => e.1.1 = block_id ∧ e.2 ≠ []) =
        s.chunk_availability.filter (fun e => e.1.1 = block_id) := by
      apply List.filter_congr
      intro e he
      simp [hne e he]
    rw [hfilter]
    unfold AlpenglowState.can_reconstruct_block
    cases hl : lookupA s.erasure_coded_blocks block_id with
    | none => simp
    | some ecb => simp
  · have h : ⌊(10 : ℚ) * 1⌋ = 10 := by norm_num
    simp [c8block, create_erasure_coded_block, floorToNat, h]

theorem insertS_ne_nil {α : Type} [DecidableEq α] (l : List α) (a : α) :
    insertS l a ≠ [] := by
  unfold insertS
  split
  · exact List.ne_nil_of_mem (by assumption)
  · simp

theorem mem_updateA_cases {α β : Type} [DecidableEq α] {m : List (α × β)} {a : α}
    {f : β → β} {e : α × β} (he : e ∈ updateA m a f) : e ∈ m ∨ ∃ x, e = (a, f x) := by
  induction m with
  | nil => simp [updateA] at he
  | cons p rest ih =>
    obtain ⟨k, v⟩ := p
    unfold updateA at he
    split at he
    · rcases List.mem_cons.mp he with h1 | h1
      · exact Or.inr ⟨v, h1⟩
      · exact Or.inl (List.mem_cons_of_mem _ h1)
    · rcases List.mem_cons.mp he with h1 | h1
      · exact Or.inl (by simp [h1])
      · rcases ih h1 with h2 | h2
        · exact Or.inl (List.mem_cons_of_mem _ h2)
        · exact Or.inr h2

theorem mem_upsertA_cases {α β : Type} [DecidableEq α] {m : List (α × β)} {a : α}
    {d : β} {f : β → β} {e : α × β} (he : e ∈ upsertA m a d f) :
    e ∈ m ∨ ∃ x, e = (a, f x) := by
  unfold upsertA at he
  split at he
  · exact mem_updateA_cases he
  · rcases List.mem_append.mp he with h1 | h1
    · exact Or.inl h1
    · simp only [List.mem_singleton] at h1
      exact Or.inr ⟨d, h1⟩

/-- Any fold of `entry(..).or_insert(HashSet::new()).insert(node)` steps keeps
every availability set non-empty. -/
theorem foldl_upsertA_insertS_nonempty {γ : Type} (key : γ → BlockId × Nat)
    (tgt : γ → NodeId) (l : List γ) (m : List ((BlockId × Nat) × List NodeId))
    (hm : ∀ e ∈ m, e.2 ≠ []) :
    ∀ e ∈ l.foldl (fun m x => upsertA m (key x) [] (fun set => insertS set (tgt x))) m,
      e.2 ≠ [] := by
  induction l generalizing m with
  | nil => exact hm
  | cons x rest ih =>
    refine ih _ ?_
    intro e he
    rcases mem_upsertA_cases he with h1 | ⟨y, h1⟩
    · exact hm e h1
    · rw [h1]
      exact insertS_ne_nil y (tgt x)

/-- The `chunk_availability` projection of handlers that never touch it. -/
theorem certifyH_chunk_availability (s : AlpenglowState) (slot : Slot) (path : VotePath) :
    (certifyH s slot path).chunk_availability = s.chunk_availability := by
  simp only [certifyH]
  repeat' split
  all_goals rfl

theorem skipCertH_chunk_availability (s : AlpenglowState) (slot : Slot) :
    (skipCertH s slot).chunk_availability = s.chunk_availability := by
  simp only [skipCertH]
  repeat' split
  all_goals rfl

/-- In every reachable state every recorded availability set is non-empty:
each inserting code path (`PropagateChunk`, `PropagateErasureBlock`,
`ReconstructBlock`) adds a node to the set in the same expression that
creates it. -/
theorem chunk_availability_entries_nonempty (nodes : List NodeId)
    (stakes : List (NodeId × StakeAmount)) (s : AlpenglowState)
    (h : Reachable (AlpenglowState.new nodes stakes) s) :
    ∀ e ∈ s.chunk_availability, e.2 ≠ [] := by
  induction h with
  | refl => intro e he; simp [AlpenglowState.new] at he
  | step hr hstep ih =>
    rename_i t t' a
    clear hr
    cases a with
    | PropagateChunk node chunk target_nodes =>
      simp only [stepA] at hstep
      injection hstep with hstep
      subst hstep
      exact foldl_upsertA_insertS_nonempty (fun x => (chunk.block_id, chunk.chunk_id))
        (fun x => x) target_nodes t.chunk_availability ih
    | PropagateErasureBlock node erasure_block =>
      simp only [stepA] at hstep
      split at hstep
      · exact absurd hstep (by simp)
      · injection hstep with hstep
        subst hstep
        simp only [AlpenglowState.propagate_chunks]
        split
        · rename_i relay hrelay
          exact foldl_upsertA_insertS_nonempty (fun cid => (erasure_block.block.id, cid))
            (fun _ => node) relay.assigned_chunks t.chunk_availability ih
        · exact ih
    | ReconstructBlock node block_id =>
      simp only [stepA] at hstep
      injection hstep with hstep
      subst hstep
      split
      · split
        · rename_i ecb hecb
          exact foldl_upsertA_insertS_nonempty (fun c : BlockChunk => (block_id, c.chunk_id))
            (fun _ => node) ecb.chunks t.chunk_availability ih
        · exact ih
      · exact ih
    | Vote node slot block path => rw [voteH_shape hstep]; exact ih
    | ByzantineVote node strategy slot => rw [byzantineVoteH_shape hstep]; exact ih
    | Certify slot path =>
      simp only [stepA] at hstep
      injection hstep with hstep
      subst hstep
      rw [certifyH_chunk_availability]
      exact ih
    | SkipCert slot =>
      simp only [stepA] at hstep
      injection hstep with hstep
      subst hstep
      rw [skipCertH_chunk_availability]
      exact ih
    | AdvanceTime delta =>
      simp only [stepA] at hstep
      injection hstep with hstep
      subst hstep
      split <;> exact ih
    | Timeout node slot =>
      simp only [stepA] at hstep
      injection hstep with hstep
      subst hstep
      exact ih
    | NetworkPartition nodes_a nodes_b =>
      simp only [stepA] at hstep
      injection hstep with hstep
      subst hstep
      exact ih
    | HealPartition =>
      simp only [stepA] at hstep
      injection hstep with hstep
      subst hstep
      exact ih
    | FormCoalition members strategy =>
      simp only [stepA] at hstep
      injection hstep with hstep
      subst hstep
      exact ih
    | CoordinateAttack coalition_index target_slot =>
      simp only [stepA] at hstep
      split at hstep
      · injection hstep with hstep; subst hstep; exact ih
      · split at hstep <;> (injection hstep with hstep; subst hstep) <;> exact ih
    | AdaptStrategy node new_strategy reason =>
      simp only [stepA] at hstep
      injection hstep with hstep
      subst hstep
      exact ih
    | TimingManipulation node delay_ms target_slot =>
      simp only [stepA] at hstep
      injection hstep with hstep
      subst hstep
      exact ih
    | SendMessage source dest content priority =>
      simp only [stepA] at hstep
      injection hstep with hstep
      subst hstep
      have : (sendMessageH t source dest content priority).chunk_availability =
          t.chunk_availability := by
        simp only [sendMessageH]
        repeat' split
        all_goals rfl
      rw [this]
      exact ih
    | DeliverMessage message_id =>
      simp only [stepA] at hstep
      injection hstep with hstep
      subst hstep
      have : (deliverMessageH t message_id).chunk_availability = t.chunk_availability := by
        simp only [deliverMessageH]
        repeat' split
        all_goals rfl
      rw [this]
      exact ih
    | DropMessage message_id reason =>
      simp only [stepA] at hstep
      injection hstep with hstep
      subst hstep
      exact ih
    | InjectNetworkFailure failure =>
      simp only [stepA] at hstep
      injection hstep with hstep
      subst hstep
      exact ih
    | RecoverFromFailure failure_index =>
      simp only [stepA] at hstep
      split at hstep <;> (injection hstep with hstep; subst hstep) <;> exact ih
    | UpdateLatencyModel new_model =>
      simp only [stepA] at hstep
      injection hstep with hstep
      subst hstep
      exact ih
    | AdjustBandwidth source dest new_bandwidth =>
      simp only [stepA] at hstep
      injection hstep with hstep
      subst hstep
      exact ih
    | SimulateCongestion links intensity =>
      simp only [stepA] at hstep
      injection hstep with hstep
      subst hstep
      exact ih
    | DistributeRewards epoch rewards =>
      simp only [stepA] at hstep
      injection hstep with hstep
      subst hstep
      have : (t.distribute_rewards rewards).chunk_availability = t.chunk_availability := by
        simp only [AlpenglowState.distribute_rewards]
        repeat' split
        all_goals rfl
      rw [this]
      exact ih
    | SlashValidator evidence =>
      simp only [stepA] at hstep
      injection hstep with hstep
      subst hstep
      have : (t.apply_slashing evidence).chunk_availability = t.chunk_availability := by
        simp only [AlpenglowState.apply_slashing]
        repeat' split
        all_goals rfl
      rw [this]
      exact ih
    | WithdrawRewards node amount =>
      simp only [stepA] at hstep
      injection hstep with hstep
      subst hstep
      repeat' split
      all_goals exact ih
    | StakeDeposit node amount =>
      simp only [stepA] at hstep
      injection hstep with hstep
      subst hstep
      repeat' split
      all_goals exact ih
    | StakeWithdrawal node amount =>
      simp only [stepA] at hstep
      injection hstep with hstep
      subst hstep
      repeat' split
      all_goals exact ih
    | ReportSlashing reporter evidence =>
      simp only [stepA] at hstep
      injection hstep with hstep
      subst hstep
      exact ih
    | UpdateEconomicParameters r1 r2 =>
      simp only [stepA] at hstep
      injection hstep with hstep
      subst hstep
      exact ih
    | RequestMissingChunks node block_id missing_chunks =>
      simp only [stepA] at hstep
      injection hstep with hstep
      subst hstep
      exact ih
    | AssignRelayNodes block_id relays =>
      simp only [stepA] at hstep
      injection hstep with hstep
      subst hstep
      exact ih
    | ProposeBlock leader slot block window =>
      simp only [stepA] at hstep
      split at hstep
      · exact absurd hstep (by simp)
      · injection hstep with hstep
        subst hstep
        split <;> exact ih
    | RotateLeader new_leader slot =>
      simp only [stepA] at hstep
      rw [rotate_leader_shape hstep]
      exact ih
    | UpdateWindow slot window_size finality_depth =>
      simp only [stepA] at hstep
      injection hstep with hstep
      subst hstep
      have : (t.update_window slot window_size finality_depth).chunk_availability =
          t.chunk_availability := by
        simp only [AlpenglowState.update_window]
        repeat' split
        all_goals rfl
      rw [this]
      exact ih

theorem can_reconstruct_block_iff_witness :
    (∀ e ∈ c8yes.chunk_availability, e.2 ≠ []) ∧
    (c8yes.can_reconstruct_block 7 = true ↔
      ∃ ecb, lookupA c8yes.erasure_coded_blocks 7 = some ecb ∧
        ecb.required_chunks ≤ (dedupKeep ((c8yes.chunk_availability.filter
          (fun e => e.1.1 = 7 ∧ e.2 ≠ [])).map (fun e => e.1.2))).length) :=
  ⟨by decide, (can_reconstruct_block_iff c8yes 7).1 (by decide)⟩

/-! ## C9: (partial) totality of `get_leader_for_slot` -/

/-- Claim C9. --  `get_leader_for_slot(slot)` is defined exactly under the
precondition `window_start ≤ slot` and a non-empty `leader_schedule`, where it
returns `leader_schedule[(slot − window_start) mod |leader_schedule|]`; for
`slot < window_start` the `u32` subtraction underflows and with an empty
schedule the modulus divisor is zero (both panics, modelled as `none`), so a
`ProposeBlock` for slot 0 from the initial state (where `window_start = 1`) —
and likewise `RotateLeader` — makes the step function undefined. -/
theorem get_leader_for_slot_totality (s : AlpenglowState) (slot : Slot) :
    (s.current_window.window_start ≤ slot → s.current_window.leader_schedule ≠ [] →
      s.get_leader_for_slot slot = s.current_window.leader_schedule.get?
        ((slot - s.current_window.window_start) % s.current_window.leader_schedule.length) ∧
      (s.get_leader_for_slot slot).isSome) ∧
    (slot < s.current_window.window_start → s.get_leader_for_slot slot = none) ∧
    (s.current_window.leader_schedule = [] → s.get_leader_for_slot slot = none) ∧
    stepA (AlpenglowState.new [0, 1] [(0, 100), (1, 100)])
      (.ProposeBlock 0 0 ⟨0, 0⟩ ⟨1, 10, 2, [0, 1]⟩) = none ∧
    stepA (AlpenglowState.new [0, 1] [(0, 100), (1, 100)]) (.RotateLeader 0 0) = none := by
  refine ⟨?_, ?_, ?_, rfl, rfl⟩
  · intro h1 h2
    have hnl : ¬ (slot < s.current_window.window_start) := Nat.not_lt.mpr h1
    constructor
    · unfold AlpenglowState.get_leader_for_slot
      rw [if_neg hnl]
    · unfold AlpenglowState.get_leader_for_slot
      rw [if_neg hnl]
      have hlt : (slot - s.current_window.window_start) %
          s.current_window.leader_schedule.length <
          s.current_window.leader_schedule.length :=
        Nat.mod_lt _ (List.length_pos.mpr h2)
      cases hg : s.current_window.leader_schedule.get?
          ((slot - s.current_window.window_start) %
            s.current_window.leader_schedule.length) with
      | none =>
        rw [List.get?_eq_none] at hg
        exact absurd hg (Nat.not_le.mpr hlt)
      | some x => simp
  · intro h
    unfold AlpenglowState.get_leader_for_slot
    rw [if_pos h]
  · intro h
    unfold AlpenglowState.get_leader_for_slot
    split
    · rfl
    · rw [h]
      rfl

theorem get_leader_for_slot_totality_witness :
    ((AlpenglowState.new [0, 1] [(0, 100), (1, 100)]).current_window.window_start ≤ 3) ∧
    ((AlpenglowState.new [0, 1] [(0, 100), (1, 100)]).current_window.leader_schedule ≠ []) ∧
    ((AlpenglowState.new [0, 1] [(0, 100), (1, 100)]).get_leader_for_slot 3 =
      (AlpenglowState.new [0, 1] [(0, 100), (1, 100)]).current_window.leader_schedule.get?
        ((3 - (AlpenglowState.new [0, 1] [(0, 100), (1, 100)]).current_window.window_start) %
          (AlpenglowState.new [0, 1] [(0, 100), (1, 100)]).current_window.leader_schedule.length) ∧
      ((AlpenglowState.new [0, 1] [(0, 100), (1, 100)]).get_leader_for_slot 3).isSome) :=
  ⟨by decide, by decide,
    (get_leader_for_slot_totality (AlpenglowState.new [0, 1] [(0, 100), (1, 100)]) 3).1
      (by decide) (by decide)⟩

end Alpenglow
